import Mathlib

/-!
# Integrity enforcer: policy matching and the decision engine

A shallow embedding of `enforcer/pkg/policy/policy.go` and
`enforcer/pkg/policy/scope.go`, followed by theorems about it.

Conventions of the embedding.

* A Go `string` is a `Str`, the list of its code points (the strings are taken
  to be valid UTF-8; every separator the code uses is ASCII, so the byte-wise
  library calls and the code-point-wise ones agree).
* A Go slice is a `List`; the `nil` slice and the empty slice are both `[]`
  (the code only ranges over slices and takes `len`, which do not tell the two
  apart, and every `!= nil` guard returns what the loop over `[]` returns).
* A pointer that may be `nil` is an `Option`.
* A run-time panic (index out of range) is the result `none` of a function
  returning `Option`.
-/

namespace IntegrityEnforcer

/-- A Go string, as the list of its code points. -/
abbrev Str := List Char

/-! ## The Go library functions the code calls -/

/-- Go `unicode.IsSpace`: the Latin-1 spaces and the code points with the
Unicode White_Space property. -/
def unicode.IsSpace (c : Char) : Bool :=
  let n := c.toNat
  n == 0x09 || n == 0x0A || n == 0x0B || n == 0x0C || n == 0x0D || n == 0x20 ||
  n == 0x85 || n == 0xA0 || n == 0x1680 || (0x2000 ≤ n && n ≤ 0x200A) ||
  n == 0x2028 || n == 0x2029 || n == 0x202F || n == 0x205F || n == 0x3000

/-- Go `strings.TrimSpace`: drop leading and trailing white space. -/
def strings.TrimSpace (s : Str) : Str :=
  (s.dropWhile unicode.IsSpace).rdropWhile unicode.IsSpace

/-- Go `strings.HasPrefix`. -/
def strings.HasPrefix (s pre : Str) : Bool := pre.isPrefixOf s

/-- Go `strings.HasSuffix`. -/
def strings.HasSuffix (s suf : Str) : Bool := suf.isSuffixOf s

/-- Go `strings.TrimRight s cutset` for a cutset of one character: drop every
trailing occurrence of it. -/
def strings.TrimRight (s : Str) (c : Char) : Str := s.rdropWhile (fun x => x == c)

/-- Go `strings.Contains s sep` for a separator of one character. -/
def strings.Contains (s : Str) (c : Char) : Bool := s.elem c

/-- Go `strings.Split s sep` for a separator of one character: the pieces
between the separators, one more than there are separators (so `[""]` for the
empty string). -/
def strings.Split (c : Char) : Str → List Str
  | [] => [[]]
  | x :: xs =>
    if x = c then [] :: strings.Split c xs
    else
      match strings.Split c xs with
      | [] => [[x]]
      | h :: t => (x :: h) :: t

/-- Go `strconv.ParseBool`: `none` is the error result. -/
def strconv.ParseBool (s : Str) : Option Bool :=
  if s = "1".toList ∨ s = "t".toList ∨ s = "T".toList ∨ s = "true".toList ∨
      s = "TRUE".toList ∨ s = "True".toList then some true
  else if s = "0".toList ∨ s = "f".toList ∨ s = "F".toList ∨ s = "false".toList ∨
      s = "FALSE".toList ∨ s = "False".toList then some false
  else none

/-- Go indexing `xs[i]` with a signed index: `none` is the index-out-of-range
panic. -/
def index {α : Type} (xs : List α) (i : Int) : Option α :=
  if i < 0 then none else xs[i.toNat]?

/-! ## Pattern matching (`scope.go`, common functions) -/

/-- `SplitRule`: split on commas and trim every piece. -/
def SplitRule (rules : Str) : List Str :=
  (strings.Split ',' rules).map strings.TrimSpace

/-- The loop of `MatchWithPatternArray`, over the matcher `m` it calls. -/
def MatchWithPatternArrayWith (m : Str → Str → Bool) (value : Str) : List Str → Bool
  | [] => false
  | pattern :: rest =>
    if m pattern value then true else MatchWithPatternArrayWith m value rest

/-- The body of `MatchPattern`, with the depth of the recursion through
`MatchWithPatternArray` bounded by the first argument. -/
def MatchPatternAux : Nat → Str → Str → Bool
  | 0, _, _ => false
  | fuel + 1, pattern, value =>
    let pattern := strings.TrimSpace pattern
    if pattern = [] then true
    else if pattern = ['*'] then true
    else if pattern = ['-'] ∧ value = [] then true
    else if strings.HasSuffix pattern ['*'] then
      strings.HasPrefix value (strings.TrimRight pattern '*')
    else if pattern = value then true
    else if strings.Contains pattern ',' then
      MatchWithPatternArrayWith (MatchPatternAux fuel) value (SplitRule pattern)
    else false

/-- `MatchPattern`. The pieces of a comma list hold no comma, so the recursion
never goes deeper than two calls; `MatchPattern_eq` below shows that this
definition satisfies the recursive equation of the source. -/
def MatchPattern (pattern value : Str) : Bool := MatchPatternAux 2 pattern value

/-- `MatchPatternWithArray`: one pattern against each of the values. -/
def MatchPatternWithArray (pattern : Str) : List Str → Bool
  | [] => false
  | value :: rest =>
    if MatchPattern pattern value then true else MatchPatternWithArray pattern rest

/-- `MatchWithPatternArray`: one value against each of the patterns. -/
def MatchWithPatternArray (value : Str) (patternArray : List Str) : Bool :=
  MatchWithPatternArrayWith MatchPattern value patternArray

/-! ## The data model (`policy.go`) -/

/-- `PolicyType` is a string type. -/
abbrev PolicyType := Str

def UnknownPolicy : PolicyType := "".toList
def DefaultPolicy : PolicyType := "DefaultPolicy".toList
def IEPolicy : PolicyType := "IEPolicy".toList
def SignerPolicy : PolicyType := "SignerPolicy".toList
def CustomPolicy : PolicyType := "CustomPolicy".toList

structure RequestMatchPattern where
  Namespace : Str := []
  Name : Str := []
  Operation : Str := []
  ApiVersion : Str := []
  Kind : Str := []
  UserName : Str := []
  Type_ : Str := []
  K8sCreatedBy : Str := []
  UserGroup : Str := []
  deriving DecidableEq, Repr

structure OwnerMatchCondition where
  Kind : Str := []
  ApiVersion : Str := []
  Name : Str := []
  deriving DecidableEq, Repr

structure AllowedChangeCondition where
  Request : RequestMatchPattern := {}
  Key : List Str := []
  Owner : OwnerMatchCondition := {}
  deriving DecidableEq, Repr

structure SubjectMatchPattern where
  Email : Str := []
  Uid : Str := []
  deriving DecidableEq, Repr

structure AllowUnverifiedCondition where
  Namespace : Str := []
  deriving DecidableEq, Repr

structure SignerMatchPattern where
  Request : RequestMatchPattern := {}
  Subject : SubjectMatchPattern := {}
  deriving DecidableEq, Repr

structure AllowedUserPattern where
  AllowChangesBySignedServiceAccount : Bool := false
  AuthorizedServiceAccount : List Str := []
  Request : RequestMatchPattern := {}
  deriving DecidableEq, Repr

structure Policy where
  Enforce : List RequestMatchPattern := []
  AllowUnverified : List AllowUnverifiedCondition := []
  IgnoreRequest : List RequestMatchPattern := []
  AllowedSigner : List SignerMatchPattern := []
  AllowedForInternalRequest : List RequestMatchPattern := []
  AllowedByRule : List RequestMatchPattern := []
  AllowedChange : List AllowedChangeCondition := []
  PermitIfVerifiedOwner : List AllowedUserPattern := []
  PermitIfCreator : List AllowedUserPattern := []
  Namespace : Str := []
  PolicyType : PolicyType := UnknownPolicy
  deriving DecidableEq, Repr

/-- The part of a Kubernetes `v1.ServiceAccount` the code reads: the annotation
map, as an association list (a key absent from the list is absent from the
map). -/
structure ServiceAccount where
  Annotations : List (Str × Str) := []
  deriving DecidableEq, Repr

/-- Modelled from the spec: the request context `common.ReqContext`, declared in
`enforcer/pkg/control/common`. Section 6 lists its attributes: namespace, name,
operation, API group, API version, kind, caller user name, caller group set, the
request type tag, the organizational created-by tag (`OrgMetadata.K8sCreatedBy`
in the code), the creator flag (read through `IsCreator()`), and the read/write
slot for the resolved service identity, `nil` until first resolution. -/
structure ReqContext where
  Namespace : Str := []
  Name : Str := []
  Operation : Str := []
  ApiGroup : Str := []
  ApiVersion : Str := []
  Kind : Str := []
  UserName : Str := []
  UserGroups : List Str := []
  Type_ : Str := []
  K8sCreatedBy : Str := []
  Creator : Bool := false
  ServiceAccount : Option ServiceAccount := none
  deriving DecidableEq, Repr

/-- The method `schema.GroupVersion.String` of the Kubernetes library:
`group/version`, or the version alone when the group is empty. -/
def GroupVersion.String (group version : Str) : Str :=
  if group.length > 0 then group ++ "/".toList ++ version else version

/-- `RequestMatchPattern.Match`. -/
def RequestMatchPattern.Match (v : RequestMatchPattern) (reqc : ReqContext) : Bool :=
  let apiVersion := GroupVersion.String reqc.ApiGroup reqc.ApiVersion
  MatchPattern v.Namespace reqc.Namespace &&
    MatchPattern v.Name reqc.Name &&
    MatchPattern v.Operation reqc.Operation &&
    MatchPattern v.Kind reqc.Kind &&
    MatchPattern v.ApiVersion apiVersion &&
    MatchPattern v.UserName reqc.UserName &&
    MatchPattern v.Type_ reqc.Type_ &&
    MatchPattern v.K8sCreatedBy reqc.K8sCreatedBy &&
    MatchPatternWithArray v.UserGroup reqc.UserGroups

/-- `Policy.CheckFormat`: the early returns of the source, in their order, as
one chain of `if`/`else`; `fmt.Sprintf` with one `%s` is concatenation. The
seven `has...` flags are read only when `pType` is `SignerPolicy`, `hasSigner`
only when it is `CustomPolicy`. -/
def Policy.CheckFormat (self : Policy) : Bool × Str :=
  let pType := self.PolicyType
  let ns := self.Namespace
  if pType = UnknownPolicy then
    (false, "\"policyType\" must be set for any Policy".toList)
  else if ns ≠ [] ∧ (pType = DefaultPolicy ∨ pType = IEPolicy ∨ pType = SignerPolicy) then
    (false, "\"namespace\" must be empty for ".toList ++ pType)
  else if ns = [] ∧ pType = CustomPolicy then
    (false, "\"namespace\" must be specified for ".toList ++ pType)
  else
    let hasEnforce := decide (self.Enforce.length > 0)
    let hasIgnore := decide (self.IgnoreRequest.length > 0)
    let hasInternal := decide (self.AllowedForInternalRequest.length > 0)
    let hasAllowRule := decide (self.AllowedByRule.length > 0)
    let hasAllowChange := decide (self.AllowedChange.length > 0)
    let hasVOwner := decide (self.PermitIfVerifiedOwner.length > 0)
    let hasFUser := decide (self.PermitIfCreator.length > 0)
    if pType = SignerPolicy ∧
        (hasEnforce || hasIgnore || hasInternal || hasAllowRule || hasAllowChange ||
          hasVOwner || hasFUser) = true then
      (false, pType ++ " must contain only AllowedSigner rule".toList)
    else
      let hasSigner := decide (self.AllowedSigner.length > 0)
      if pType = CustomPolicy ∧ hasSigner = true then
        (false, pType ++ " must not contain AllowedSigner rule".toList)
      else (true, [])

/-- `Policy.Merge`: every rule list is `append(p.X, p2.X...)`; `Namespace` and
`PolicyType` are not set, so they hold their zero values. -/
def Policy.Merge (p p2 : Policy) : Policy :=
  { Enforce := p.Enforce ++ p2.Enforce
    IgnoreRequest := p.IgnoreRequest ++ p2.IgnoreRequest
    AllowedSigner := p.AllowedSigner ++ p2.AllowedSigner
    AllowedForInternalRequest := p.AllowedForInternalRequest ++ p2.AllowedForInternalRequest
    AllowedByRule := p.AllowedByRule ++ p2.AllowedByRule
    AllowedChange := p.AllowedChange ++ p2.AllowedChange
    PermitIfVerifiedOwner := p.PermitIfVerifiedOwner ++ p2.PermitIfVerifiedOwner
    PermitIfCreator := p.PermitIfCreator ++ p2.PermitIfCreator
    AllowUnverified := p.AllowUnverified ++ p2.AllowUnverified
    Namespace := []
    PolicyType := UnknownPolicy }

/-! ## The decision engine (`scope.go`) -/

/-- `concretePolicyChecker.check`: does some pattern of the list match? -/
def check (reqc : ReqContext) : List RequestMatchPattern → Bool
  | [] => false
  | v :: rest => if v.Match reqc then true else check reqc rest

/-- `IsTrustStateEnforcementDisabled`; the policy pointer may be `nil`. -/
def IsTrustStateEnforcementDisabled (policy : Option Policy) (reqc : ReqContext) : Bool :=
  match policy with
  | some p => p.AllowUnverified.any (fun pattern => pattern.Namespace = reqc.Namespace)
  | none => false

/-- `IsIgnoreRequest`. -/
def IsIgnoreRequest (policy : Option Policy) (reqc : ReqContext) : Bool :=
  match policy with
  | some p => check reqc p.IgnoreRequest
  | none => false

/-- `IsEnforceResult`. -/
def IsEnforceResult (policy : Option Policy) (reqc : ReqContext) : Bool :=
  if IsIgnoreRequest policy reqc then false
  else
    match policy with
    | some p => check reqc p.Enforce
    | none => false

/-- `IsAllowedForInternalRequest`. -/
def IsAllowedForInternalRequest (policy : Option Policy) (reqc : ReqContext) : Bool :=
  match policy with
  | some p => check reqc p.AllowedForInternalRequest
  | none => false

/-- `IsAllowedByRule`. -/
def IsAllowedByRule (policy : Option Policy) (reqc : ReqContext) : Bool :=
  match policy with
  | some p => check reqc p.AllowedByRule
  | none => false

/-- The identity lookup `GetServiceAccount name namespace`, which asks the
cluster: `none` is its error result. The walk takes it as a parameter. -/
abbrev Lookup := Str → Str → Option ServiceAccount

/-- What one pass through the body of the loop of `isAuthorizedServiceAccount`
does: return from the function, go on with the next entry (`continue`, or the
end of the body), or panic. The request context is carried along because the
body may fill its service-account slot. -/
inductive Outcome where
  | ret (b : Bool) (reqc : ReqContext)
  | next (reqc : ReqContext)
  | panic
  deriving DecidableEq, Repr

/-- The inner loop over `p.AuthorizedServiceAccount` (lines 151-161): `some true`
when it returns from the function, `some false` when it runs to its end, `none`
when `name[len(name)-1]` is out of range. -/
def authorizedLoop (reqcUserName : Str) : List Str → Option Bool
  | [] => some false
  | au :: rest =>
    let userName : Option Str :=
      if strings.Contains reqcUserName ':' then
        let name := strings.Split ':' reqcUserName
        index name ((name.length : Int) - 1)
      else some reqcUserName
    match userName with
    | none => none
    | some userName =>
      if MatchPattern au userName then some true else authorizedLoop reqcUserName rest

/-- The two annotation checks at the end of the loop body (lines 181-198),
on the resolved service account `sa`. -/
def checkAnnotations (sa : ServiceAccount) (reqc : ReqContext) : Outcome :=
  let second : Outcome :=
    match sa.Annotations.lookup "integrityUnverified".toList with
    | some s =>
      match strconv.ParseBool s with
      | none => Outcome.next reqc
      | some b => if b then Outcome.ret b reqc else Outcome.next reqc
    | none => Outcome.next reqc
  match sa.Annotations.lookup "integrityVerified".toList with
  | some s =>
    match strconv.ParseBool s with
    | none => Outcome.next reqc
    | some b => if b then Outcome.ret b reqc else second
  | none => second

/-- The signed-service-account part of the loop body (lines 163-199). -/
def signedServiceAccount (lookup : Lookup) (reqc : ReqContext) : Outcome :=
  match reqc.ServiceAccount with
  | none =>
    if !strings.HasPrefix reqc.UserName "system:".toList ||
        !strings.Contains reqc.UserName ':' then Outcome.next reqc
    else
      let name := strings.Split ':' reqc.UserName
      match index name ((name.length : Int) - 1), index name ((name.length : Int) - 2) with
      | some saName, some namespace_ =>
        match lookup saName namespace_ with
        | none => Outcome.next reqc
        | some serviceAccount =>
          checkAnnotations serviceAccount { reqc with ServiceAccount := some serviceAccount }
      | _, _ => Outcome.panic
  | some sa => checkAnnotations sa reqc

/-- The body of the loop of `isAuthorizedServiceAccount`, for the entry `p`. -/
def loopBody (lookup : Lookup) (reqc : ReqContext) (p : AllowedUserPattern) : Outcome :=
  let request := p.Request.Match reqc
  if !request then Outcome.next reqc
  else
    let listed : Option Bool :=
      if p.AuthorizedServiceAccount.length ≠ 0 then
        authorizedLoop reqc.UserName p.AuthorizedServiceAccount
      else some false
    match listed with
    | none => Outcome.panic
    | some true => Outcome.ret true reqc
    | some false =>
      if p.AllowChangesBySignedServiceAccount then signedServiceAccount lookup reqc
      else Outcome.next reqc

/-- `isAuthorizedServiceAccount`, the ownership walk: the value returned and
the request context the walk leaves behind, or `none` for a panic. -/
def isAuthorizedServiceAccount (lookup : Lookup) :
    ReqContext → List AllowedUserPattern → Option (Bool × ReqContext)
  | reqc, [] => some (false, reqc)
  | reqc, p :: rest =>
    match loopBody lookup reqc p with
    | Outcome.ret b reqc1 => some (b, reqc1)
    | Outcome.next reqc1 => isAuthorizedServiceAccount lookup reqc1 rest
    | Outcome.panic => none

/-- `PermitIfVerifiedOwner`. -/
def PermitIfVerifiedOwner (lookup : Lookup) (policy : Option Policy) (reqc : ReqContext) :
    Option (Bool × ReqContext) :=
  match policy with
  | some p => isAuthorizedServiceAccount lookup reqc p.PermitIfVerifiedOwner
  | none => some (false, reqc)

/-- `PermitIfCreator`. -/
def PermitIfCreator (lookup : Lookup) (policy : Option Policy) (reqc : ReqContext) :
    Option (Bool × ReqContext) :=
  if reqc.Creator then
    match policy with
    | some p => isAuthorizedServiceAccount lookup reqc p.PermitIfCreator
    | none => some (false, reqc)
  else some (false, reqc)

/-! ## Notions the claims are stated with -/

/-- Following the words of the claims: the caller name with everything up to
and including its last `:` removed, that is, its longest suffix without a `:`
(the whole name when it has none). -/
def afterLastColon (userName : Str) : Str := userName.rtakeWhile (fun x => x != ':')

/-- The service identity the signed-service-account step works with: the one in
the slot of the request context, or, the slot being empty, the one the lookup
returns for the last and the second-to-last `:`-separated segment of a caller
name that starts with `system:`; `none` when there is none. -/
def resolvedServiceAccount (lookup : Lookup) (reqc : ReqContext) : Option ServiceAccount :=
  match reqc.ServiceAccount with
  | some sa => some sa
  | none =>
    if strings.HasPrefix reqc.UserName "system:".toList then
      let name := strings.Split ':' reqc.UserName
      match index name ((name.length : Int) - 1), index name ((name.length : Int) - 2) with
      | some saName, some namespace_ => lookup saName namespace_
      | _, _ => none
    else none

/-- An annotation of the service account is present with a value that
`strconv.ParseBool` reads as `b`. -/
def annotationIs (sa : ServiceAccount) (key : Str) (b : Bool) : Prop :=
  (sa.Annotations.lookup key).bind strconv.ParseBool = some b

instance (sa : ServiceAccount) (key : Str) (b : Bool) : Decidable (annotationIs sa key b) := by
  unfold annotationIs
  infer_instance

/-- The verdict of the two annotation checks: `integrityVerified` reads true, or
it is absent or reads false and `integrityUnverified` reads true. A malformed
`integrityVerified` ends the checks. -/
def trusted (sa : ServiceAccount) : Prop :=
  annotationIs sa "integrityVerified".toList true ∨
    ((sa.Annotations.lookup "integrityVerified".toList = none ∨
        annotationIs sa "integrityVerified".toList false) ∧
      annotationIs sa "integrityUnverified".toList true)

instance (sa : ServiceAccount) : Decidable (trusted sa) := by
  unfold trusted
  infer_instance

/-- A lookup for the examples: it knows one service account, `builder` in the
namespace `ci`, with the given annotations, and fails for every other name. -/
def lookupBuilder (annotations : List (Str × Str)) : Lookup :=
  fun name namespace_ =>
    if name = "builder".toList ∧ namespace_ = "ci".toList then
      some { Annotations := annotations }
    else none

/-- A request context for the examples: the service account `builder` of the
namespace `ci` changes a `ConfigMap` there; the slot is still empty. -/
def builderRequest : ReqContext :=
  { Namespace := "ci".toList, Name := "settings".toList, Operation := "UPDATE".toList,
    ApiVersion := "v1".toList, Kind := "ConfigMap".toList,
    UserName := "system:serviceaccount:ci:builder".toList,
    UserGroups := ["system:serviceaccounts".toList] }

/-- The value the walk returns: `some b` when it returns `b`, `none` when it
panics. -/
def walkResult (lookup : Lookup) (reqc : ReqContext) (patterns : List AllowedUserPattern) :
    Option Bool :=
  (isAuthorizedServiceAccount lookup reqc patterns).map Prod.fst

/-- Following the words of section 3: the invariants a policy violates, in the
order of the section, each named by the message `CheckFormat` has for it. The
third one counts every rule list other than `AllowedSigner`. -/
def violatedInvariants (self : Policy) : List Str :=
  (if self.PolicyType = UnknownPolicy then
      ["\"policyType\" must be set for any Policy".toList]
    else []) ++
  (if self.Namespace ≠ [] ∧ (self.PolicyType = DefaultPolicy ∨ self.PolicyType = IEPolicy ∨
        self.PolicyType = SignerPolicy) then
      ["\"namespace\" must be empty for ".toList ++ self.PolicyType]
    else if self.Namespace = [] ∧ self.PolicyType = CustomPolicy then
      ["\"namespace\" must be specified for ".toList ++ self.PolicyType]
    else []) ++
  (if self.PolicyType = SignerPolicy ∧
        (self.Enforce ≠ [] ∨ self.AllowUnverified ≠ [] ∨ self.IgnoreRequest ≠ [] ∨
          self.AllowedForInternalRequest ≠ [] ∨ self.AllowedByRule ≠ [] ∨
          self.AllowedChange ≠ [] ∨ self.PermitIfVerifiedOwner ≠ [] ∨
          self.PermitIfCreator ≠ []) then
      [self.PolicyType ++ " must contain only AllowedSigner rule".toList]
    else []) ++
  (if self.PolicyType = CustomPolicy ∧ self.AllowedSigner ≠ [] then
      [self.PolicyType ++ " must not contain AllowedSigner rule".toList]
    else [])


/-- The entry `p` makes the walk return true on the request `reqc`: it matches
the request, and one of its listed patterns matches the caller name after its
last `:`, or its flag is set and the resolved service identity is trusted. -/
def entrySucceeds (lookup : Lookup) (reqc : ReqContext) (p : AllowedUserPattern) : Bool :=
  p.Request.Match reqc &&
    (p.AuthorizedServiceAccount.any (fun au => MatchPattern au (afterLastColon reqc.UserName)) ||
      (p.AllowChangesBySignedServiceAccount &&
        match resolvedServiceAccount lookup reqc with
        | some sa => decide (trusted sa)
        | none => false))


/-! ## Facts about the library functions -/

theorem mem_of_mem_TrimSpace {s : Str} {x : Char} (h : x ∈ strings.TrimSpace s) : x ∈ s := by
  unfold strings.TrimSpace at h
  have h1 : x ∈ s.dropWhile unicode.IsSpace :=
    (List.rdropWhile_prefix unicode.IsSpace _).subset h
  exact (List.dropWhile_suffix unicode.IsSpace).subset h1

theorem not_mem_of_mem_Split (c : Char) :
    ∀ (s : Str) (e : Str), e ∈ strings.Split c s → c ∉ e := by
  intro s
  induction s with
  | nil =>
    intro e he
    simp [strings.Split] at he
    simp [he]
  | cons x xs ih =>
    intro e he
    unfold strings.Split at he
    split at he
    · rcases List.mem_cons.1 he with h | h
      · simp [h]
      · exact ih e h
    · rename_i hx
      split at he
      · simp at he
        subst he
        simpa using fun h => hx h.symm
      · rename_i h t hsplit
        rcases List.mem_cons.1 he with h1 | h1
        · subst h1
          have := ih h (by rw [hsplit]; exact List.mem_cons_self _ _)
          intro hmem
          rcases List.mem_cons.1 hmem with h2 | h2
          · exact hx h2.symm
          · exact this h2
        · exact ih e (by rw [hsplit]; exact List.mem_cons_of_mem _ h1)

theorem not_mem_of_mem_SplitRule {rules e : Str} (he : e ∈ SplitRule rules) : ',' ∉ e := by
  unfold SplitRule at he
  rcases List.mem_map.1 he with ⟨piece, hp, rfl⟩
  exact fun h => not_mem_of_mem_Split ',' rules piece hp (mem_of_mem_TrimSpace h)

theorem MatchWithPatternArrayWith_congr {m1 m2 : Str → Str → Bool} {value : Str} :
    ∀ {l : List Str}, (∀ e ∈ l, m1 e value = m2 e value) →
      MatchWithPatternArrayWith m1 value l = MatchWithPatternArrayWith m2 value l := by
  intro l
  induction l with
  | nil => intro _; rfl
  | cons e rest ih =>
    intro h
    simp only [MatchWithPatternArrayWith]
    rw [h e (List.mem_cons_self _ _), ih (fun e he => h e (List.mem_cons_of_mem _ he))]

theorem MatchWithPatternArrayWith_eq_true {m : Str → Str → Bool} {value : Str} :
    ∀ {l : List Str}, MatchWithPatternArrayWith m value l = true ↔ ∃ e ∈ l, m e value = true := by
  intro l
  induction l with
  | nil => simp [MatchWithPatternArrayWith]
  | cons e rest ih =>
    simp only [MatchWithPatternArrayWith, List.mem_cons, exists_eq_or_imp]
    by_cases h : m e value = true
    · simp [h]
    · simp [h, ih]

theorem MatchPatternAux_succ (fuel : Nat) (pattern value : Str) :
    MatchPatternAux (fuel + 1) pattern value =
      (let pattern := strings.TrimSpace pattern
       if pattern = [] then true
       else if pattern = ['*'] then true
       else if pattern = ['-'] ∧ value = [] then true
       else if strings.HasSuffix pattern ['*'] then
         strings.HasPrefix value (strings.TrimRight pattern '*')
       else if pattern = value then true
       else if strings.Contains pattern ',' then
         MatchWithPatternArrayWith (MatchPatternAux fuel) value (SplitRule pattern)
       else false) := rfl

/-- A pattern without a comma is decided without recursion, so the bound on
the depth does not matter. -/
theorem MatchPatternAux_of_not_mem {pattern : Str} (h : ',' ∉ pattern) (n m : Nat) (value : Str) :
    MatchPatternAux (n + 1) pattern value = MatchPatternAux (m + 1) pattern value := by
  have hc : strings.Contains (strings.TrimSpace pattern) ',' = false := by
    unfold strings.Contains
    simpa using fun hm => h (mem_of_mem_TrimSpace hm)
  rw [MatchPatternAux_succ, MatchPatternAux_succ]
  simp only [hc]
  simp

/-- The recursive equation of the source: `MatchPattern` is the body of the Go
function, with `MatchWithPatternArray` calling `MatchPattern` again. -/
theorem MatchPattern_eq (pattern value : Str) :
    MatchPattern pattern value =
      (let pattern := strings.TrimSpace pattern
       if pattern = [] then true
       else if pattern = ['*'] then true
       else if pattern = ['-'] ∧ value = [] then true
       else if strings.HasSuffix pattern ['*'] then
         strings.HasPrefix value (strings.TrimRight pattern '*')
       else if pattern = value then true
       else if strings.Contains pattern ',' then
         MatchWithPatternArray value (SplitRule pattern)
       else false) := by
  have h : MatchWithPatternArrayWith (MatchPatternAux 1) value
        (SplitRule (strings.TrimSpace pattern)) =
      MatchWithPatternArray value (SplitRule (strings.TrimSpace pattern)) := by
    unfold MatchWithPatternArray MatchPattern
    exact MatchWithPatternArrayWith_congr
      (fun e he => MatchPatternAux_of_not_mem (not_mem_of_mem_SplitRule he) 0 1 value)
  show MatchPatternAux (1 + 1) pattern value = _
  rw [MatchPatternAux_succ]
  simp only [h]

theorem MatchWithPatternArray_eq_true {value : Str} {l : List Str} :
    MatchWithPatternArray value l = true ↔ ∃ e ∈ l, MatchPattern e value = true :=
  MatchWithPatternArrayWith_eq_true

theorem MatchPatternWithArray_eq_true {pattern : Str} :
    ∀ {l : List Str}, MatchPatternWithArray pattern l = true ↔
      ∃ value ∈ l, MatchPattern pattern value = true := by
  intro l
  induction l with
  | nil => simp [MatchPatternWithArray]
  | cons e rest ih =>
    simp only [MatchPatternWithArray, List.mem_cons, exists_eq_or_imp]
    by_cases h : MatchPattern pattern e = true
    · simp [h]
    · simp [h, ih]

/-! ### Trimming and splitting -/

theorem IsSpace_ne_comma {c : Char} (h : unicode.IsSpace c = true) : c ≠ ',' := by
  intro hc
  subst hc
  exact absurd h (by decide)

theorem TrimSpace_cons_of_IsSpace {c : Char} (h : unicode.IsSpace c = true) (s : Str) :
    strings.TrimSpace (c :: s) = strings.TrimSpace s := by
  simp [strings.TrimSpace, List.dropWhile_cons, h]

theorem TrimSpace_concat_of_IsSpace {c : Char} (h : unicode.IsSpace c = true) :
    ∀ s : Str, strings.TrimSpace (s ++ [c]) = strings.TrimSpace s := by
  intro s
  induction s with
  | nil => simp [strings.TrimSpace, List.dropWhile_cons, h]
  | cons x xs ih =>
    by_cases hx : unicode.IsSpace x = true
    · rw [List.cons_append, TrimSpace_cons_of_IsSpace hx, TrimSpace_cons_of_IsSpace hx, ih]
    · have e1 : List.dropWhile unicode.IsSpace (x :: xs ++ [c]) = (x :: xs) ++ [c] := by
        simp [List.dropWhile_cons, hx]
      have e2 : List.dropWhile unicode.IsSpace (x :: xs) = x :: xs := by
        simp [List.dropWhile_cons, hx]
      unfold strings.TrimSpace
      rw [e1, e2, List.rdropWhile_concat_pos _ _ _ h]

theorem mem_TrimSpace_of_mem {s : Str} {x : Char} (hx : unicode.IsSpace x = false)
    (h : x ∈ s) : x ∈ strings.TrimSpace s := by
  have drop : ∀ l : Str, x ∈ l → x ∈ l.dropWhile unicode.IsSpace := by
    intro l
    induction l with
    | nil => intro h; exact h
    | cons y ys ih =>
      intro hm
      by_cases hy : unicode.IsSpace y = true
      · have hxy : x ≠ y := fun e => by rw [e, hy] at hx; exact Bool.noConfusion hx
        rcases List.mem_cons.1 hm with h1 | h1
        · exact absurd h1 hxy
        · simpa [List.dropWhile_cons, hy] using ih h1
      · simpa [List.dropWhile_cons, hy] using hm
  unfold strings.TrimSpace
  rw [List.rdropWhile, List.mem_reverse]
  exact drop _ (List.mem_reverse.2 (drop _ h))

theorem Split_ne_nil (c : Char) (s : Str) : strings.Split c s ≠ [] := by
  cases s with
  | nil => simp [strings.Split]
  | cons x xs =>
    unfold strings.Split
    split
    · simp
    · split <;> simp

/-- Appending a character that is not the separator extends the last piece. -/
theorem Split_concat (sep : Char) (s : Str) :
    ∃ init last, strings.Split sep s = init ++ [last] ∧
      ∀ c, c ≠ sep → strings.Split sep (s ++ [c]) = init ++ [last ++ [c]] := by
  induction s with
  | nil =>
    refine ⟨[], [], rfl, ?_⟩
    intro c hc
    simp [strings.Split, hc]
  | cons x xs ih =>
    obtain ⟨init, last, h1, h2⟩ := ih
    by_cases hx : x = sep
    · refine ⟨[] :: init, last, ?_, ?_⟩
      · simp [strings.Split, hx, h1]
      · intro c hc
        simp [strings.Split, hx, h2 c hc]
    · cases init with
      | nil =>
        refine ⟨[], x :: last, ?_, ?_⟩
        · simp [strings.Split, hx, h1]
        · intro c hc
          simp [strings.Split, hx, h2 c hc]
      | cons i is =>
        refine ⟨(x :: i) :: is, last, ?_, ?_⟩
        · simp [strings.Split, hx, h1]
        · intro c hc
          simp [strings.Split, hx, h2 c hc]

theorem SplitRule_cons_of_IsSpace {c : Char} (h : unicode.IsSpace c = true) (s : Str) :
    SplitRule (c :: s) = SplitRule s := by
  unfold SplitRule
  have hc : c ≠ ',' := IsSpace_ne_comma h
  cases hs : strings.Split ',' s with
  | nil => exact absurd hs (Split_ne_nil _ _)
  | cons p ps => simp [strings.Split, hc, hs, TrimSpace_cons_of_IsSpace h]

theorem SplitRule_concat_of_IsSpace {c : Char} (h : unicode.IsSpace c = true) (s : Str) :
    SplitRule (s ++ [c]) = SplitRule s := by
  unfold SplitRule
  obtain ⟨init, last, h1, h2⟩ := Split_concat ',' s
  rw [h2 c (IsSpace_ne_comma h), h1]
  simp [TrimSpace_concat_of_IsSpace h]

theorem SplitRule_dropWhile (s : Str) :
    SplitRule (s.dropWhile unicode.IsSpace) = SplitRule s := by
  induction s with
  | nil => rfl
  | cons x xs ih =>
    by_cases hx : unicode.IsSpace x = true
    · rw [List.dropWhile_cons_of_pos hx, ih, SplitRule_cons_of_IsSpace hx]
    · rw [List.dropWhile_cons_of_neg hx]

theorem SplitRule_rdropWhile (s : Str) :
    SplitRule (s.rdropWhile unicode.IsSpace) = SplitRule s := by
  induction s using List.reverseRecOn with
  | nil => rfl
  | append_singleton l a ih =>
    by_cases ha : unicode.IsSpace a = true
    · rw [List.rdropWhile_concat_pos _ _ _ ha, ih, SplitRule_concat_of_IsSpace ha]
    · rw [List.rdropWhile_concat_neg _ _ _ ha]

/-- Trimming the whole rule first, as `MatchPattern` does before it calls
`SplitRule`, does not change the trimmed pieces. -/
theorem SplitRule_TrimSpace (s : Str) : SplitRule (strings.TrimSpace s) = SplitRule s := by
  unfold strings.TrimSpace
  rw [SplitRule_rdropWhile, SplitRule_dropWhile]

/-! ### Segments of the caller name -/

theorem Split_concat_sep (sep : Char) (s : Str) :
    strings.Split sep (s ++ [sep]) = strings.Split sep s ++ [[]] := by
  induction s with
  | nil => simp [strings.Split]
  | cons x xs ih =>
    by_cases hx : x = sep
    · simp [strings.Split, hx, ih]
    · cases hs : strings.Split sep xs with
      | nil => exact absurd hs (Split_ne_nil _ _)
      | cons h t => simp [strings.Split, hx, ih, hs]

/-- The last piece of a split is the longest suffix without the separator. -/
theorem getLast?_Split (sep : Char) (s : Str) :
    (strings.Split sep s).getLast? = some (s.rtakeWhile (fun x => x != sep)) := by
  induction s using List.reverseRecOn with
  | nil => rfl
  | append_singleton l a ih =>
    by_cases ha : a = sep
    · subst ha
      rw [Split_concat_sep, List.getLast?_concat,
        List.rtakeWhile_concat_neg _ _ _ (by simp)]
    · obtain ⟨init, last, h1, h2⟩ := Split_concat sep l
      rw [h1, List.getLast?_concat] at ih
      rw [h2 a ha, List.getLast?_concat,
        List.rtakeWhile_concat_pos _ _ _ (by simpa using ha)]
      simp only [Option.some.injEq] at ih
      rw [ih]

theorem two_le_length_Split {sep : Char} :
    ∀ {s : Str}, sep ∈ s → 2 ≤ (strings.Split sep s).length := by
  intro s
  induction s with
  | nil => intro h; simp at h
  | cons x xs ih =>
    intro h
    by_cases hx : x = sep
    · have := List.length_pos.2 (Split_ne_nil sep xs)
      simp only [strings.Split, hx, if_true, List.length_cons]
      omega
    · have hxs : sep ∈ xs := by
        rcases List.mem_cons.1 h with h1 | h1
        · exact absurd h1.symm hx
        · exact h1
      have := ih hxs
      cases hs : strings.Split sep xs with
      | nil => exact absurd hs (Split_ne_nil _ _)
      | cons h t =>
        rw [hs] at this
        simpa [strings.Split, hx, hs] using this

theorem index_last {α : Type} (xs : List α) (h : xs ≠ []) :
    index xs ((xs.length : Int) - 1) = xs.getLast? := by
  have hl := List.length_pos.2 h
  have h0 : ¬ ((xs.length : Int) - 1 < 0) := by omega
  have h1 : ((xs.length : Int) - 1).toNat = xs.length - 1 := by omega
  simp only [index, h0, if_false, h1, List.getLast?_eq_getElem?]

theorem index_isSome {α : Type} (xs : List α) (i : Int) (h0 : 0 ≤ i) (h1 : i < xs.length) :
    ∃ a, index xs i = some a := by
  have h2 : ¬ (i < 0) := by omega
  have h3 : i.toNat < xs.length := by omega
  exact ⟨xs[i.toNat], by simp only [index, h2, if_false, List.getElem?_eq_getElem h3]⟩

theorem index_Split_last (s : Str) :
    index (strings.Split ':' s) (((strings.Split ':' s).length : Int) - 1) =
      some (afterLastColon s) := by
  rw [index_last _ (Split_ne_nil _ _), getLast?_Split]
  rfl

theorem afterLastColon_of_not_mem {s : Str} (h : ':' ∉ s) : afterLastColon s = s := by
  unfold afterLastColon
  rw [List.rtakeWhile_eq_self_iff]
  intro x hx
  have hne : x ≠ ':' := fun e => h (e ▸ hx)
  simpa using hne

theorem mem_of_HasPrefix_system {s : Str} (h : strings.HasPrefix s "system:".toList = true) :
    ':' ∈ s := by
  unfold strings.HasPrefix at h
  rw [List.isPrefixOf_iff_prefix] at h
  exact h.subset (by decide)

/-! ### The ownership walk -/

/-- The inner loop never panics: it says whether one of the listed patterns
matches the caller name after its last `:`. -/
theorem authorizedLoop_eq (userName : Str) :
    ∀ l : List Str,
      authorizedLoop userName l =
        some (l.any (fun au => MatchPattern au (afterLastColon userName))) := by
  have hname : (if strings.Contains userName ':' = true then
        index (strings.Split ':' userName) (((strings.Split ':' userName).length : Int) - 1)
      else some userName) = some (afterLastColon userName) := by
    by_cases hc : strings.Contains userName ':' = true
    · rw [if_pos hc, index_Split_last]
    · rw [if_neg hc, afterLastColon_of_not_mem (by simpa [strings.Contains] using hc)]
  intro l
  induction l with
  | nil => rfl
  | cons au rest ih =>
    simp only [authorizedLoop, hname, List.any_cons, ih]
    by_cases h : MatchPattern au (afterLastColon userName) = true
    · simp [h]
    · simp [h]

/-- The signed-service-account step never panics: a caller name that passes the
guard has two segments. It skips the entry when no identity resolves and
inspects the annotations of the resolved identity otherwise, leaving it in the
slot. -/
theorem signedServiceAccount_eq (lookup : Lookup) (reqc : ReqContext) :
    signedServiceAccount lookup reqc =
      match resolvedServiceAccount lookup reqc with
      | some sa => checkAnnotations sa { reqc with ServiceAccount := some sa }
      | none => Outcome.next reqc := by
  unfold signedServiceAccount resolvedServiceAccount
  cases hsa : reqc.ServiceAccount with
  | some sa =>
    have hr : ({ reqc with ServiceAccount := some sa } : ReqContext) = reqc := by
      cases reqc
      simp only at hsa
      simp [hsa]
    simp only [hr]
  | none =>
    by_cases hp : strings.HasPrefix reqc.UserName "system:".toList = true
    · have hmem := mem_of_HasPrefix_system hp
      have hc : strings.Contains reqc.UserName ':' = true := by
        simpa [strings.Contains] using hmem
      have hlen := two_le_length_Split hmem
      obtain ⟨a, ha⟩ := index_isSome (strings.Split ':' reqc.UserName)
        (((strings.Split ':' reqc.UserName).length : Int) - 1) (by omega) (by omega)
      obtain ⟨b, hb⟩ := index_isSome (strings.Split ':' reqc.UserName)
        (((strings.Split ':' reqc.UserName).length : Int) - 2) (by omega) (by omega)
      simp only [hp, hc, ha, hb, Bool.not_true, Bool.or_self, Bool.false_eq_true, if_false,
        if_true]
      cases lookup a b <;> rfl
    · rw [Bool.not_eq_true] at hp
      simp only [hp]
      simp

theorem checkAnnotations_eq (sa : ServiceAccount) (reqc : ReqContext) :
    checkAnnotations sa reqc =
      if trusted sa then Outcome.ret true reqc else Outcome.next reqc := by
  have key : ∀ v u : Option Str,
      sa.Annotations.lookup "integrityVerified".toList = v →
      sa.Annotations.lookup "integrityUnverified".toList = u →
      checkAnnotations sa reqc =
        if trusted sa then Outcome.ret true reqc else Outcome.next reqc := by
    intro v u hv hu
    have ht : trusted sa ↔
        (v.bind strconv.ParseBool = some true ∨
          ((v = none ∨ v.bind strconv.ParseBool = some false) ∧
            u.bind strconv.ParseBool = some true)) := by
      unfold trusted annotationIs
      rw [hv, hu]
    unfold checkAnnotations
    simp only [hv, hu, ht]
    cases v with
    | none =>
      cases u with
      | none => simp
      | some u =>
        cases hu1 : strconv.ParseBool u with
        | none => simp [hu1]
        | some b => cases b <;> simp [hu1]
    | some v =>
      cases hv1 : strconv.ParseBool v with
      | none => simp [hv1]
      | some b =>
        cases b
        · cases u with
          | none => simp [hv1]
          | some u =>
            cases hu1 : strconv.ParseBool u with
            | none => simp [hv1, hu1]
            | some b => cases b <;> simp [hv1, hu1]
        · simp [hv1]
  exact key _ _ rfl rfl

/-- The body of the loop, case by case. -/
theorem loopBody_eq (lookup : Lookup) (reqc : ReqContext) (p : AllowedUserPattern) :
    loopBody lookup reqc p =
      if p.Request.Match reqc = false then Outcome.next reqc
      else if p.AuthorizedServiceAccount.any
          (fun au => MatchPattern au (afterLastColon reqc.UserName)) = true then
        Outcome.ret true reqc
      else if p.AllowChangesBySignedServiceAccount = true then
        match resolvedServiceAccount lookup reqc with
        | some sa =>
          if trusted sa then Outcome.ret true { reqc with ServiceAccount := some sa }
          else Outcome.next { reqc with ServiceAccount := some sa }
        | none => Outcome.next reqc
      else Outcome.next reqc := by
  unfold loopBody
  by_cases hm : p.Request.Match reqc = true
  · simp only [hm, Bool.not_true, Bool.false_eq_true, if_false, Bool.true_eq_false]
    have hl : (if p.AuthorizedServiceAccount.length ≠ 0 then
          authorizedLoop reqc.UserName p.AuthorizedServiceAccount else some false) =
        some (p.AuthorizedServiceAccount.any
          (fun au => MatchPattern au (afterLastColon reqc.UserName))) := by
      by_cases h0 : p.AuthorizedServiceAccount.length ≠ 0
      · rw [if_pos h0, authorizedLoop_eq]
      · have : p.AuthorizedServiceAccount = [] := by
          simpa using h0
        simp [this]
    rw [hl]
    cases hany : p.AuthorizedServiceAccount.any
        (fun au => MatchPattern au (afterLastColon reqc.UserName)) with
    | true => simp
    | false =>
      simp only [Bool.false_eq_true, if_false]
      by_cases hf : p.AllowChangesBySignedServiceAccount = true
      · simp only [hf, if_true, signedServiceAccount_eq]
        cases resolvedServiceAccount lookup reqc with
        | none => rfl
        | some sa => simp only [checkAnnotations_eq]
      · simp [hf]
  · simp [hm]

/-- The loop body never panics; when it returns, it returns true; and it
changes nothing of the request context but the service-account slot. -/
theorem loopBody_cases (lookup : Lookup) (reqc : ReqContext) (p : AllowedUserPattern) :
    ∃ sa, loopBody lookup reqc p = Outcome.ret true { reqc with ServiceAccount := sa } ∨
      loopBody lookup reqc p = Outcome.next { reqc with ServiceAccount := sa } := by
  rw [loopBody_eq]
  by_cases hm : p.Request.Match reqc = false
  · exact ⟨reqc.ServiceAccount, Or.inr (by simp [hm])⟩
  · by_cases hany : p.AuthorizedServiceAccount.any
        (fun au => MatchPattern au (afterLastColon reqc.UserName)) = true
    · exact ⟨reqc.ServiceAccount, Or.inl (by simp [hm, hany])⟩
    · by_cases hf : p.AllowChangesBySignedServiceAccount = true
      · cases hr : resolvedServiceAccount lookup reqc with
        | none => exact ⟨reqc.ServiceAccount, Or.inr (by simp [hm, hany, hf])⟩
        | some sa =>
          by_cases ht : trusted sa
          · exact ⟨some sa, Or.inl (by simp [hm, hany, hf, ht])⟩
          · exact ⟨some sa, Or.inr (by simp [hm, hany, hf, ht])⟩
      · exact ⟨reqc.ServiceAccount, Or.inr (by simp [hm, hany, hf])⟩

theorem walkResult_cons_ret {lookup : Lookup} {reqc reqc1 : ReqContext}
    {p : AllowedUserPattern} {b : Bool} (h : loopBody lookup reqc p = Outcome.ret b reqc1)
    (rest : List AllowedUserPattern) : walkResult lookup reqc (p :: rest) = some b := by
  simp [walkResult, isAuthorizedServiceAccount, h]

theorem walkResult_cons_next {lookup : Lookup} {reqc reqc1 : ReqContext}
    {p : AllowedUserPattern} (h : loopBody lookup reqc p = Outcome.next reqc1)
    (rest : List AllowedUserPattern) :
    walkResult lookup reqc (p :: rest) = walkResult lookup reqc1 rest := by
  simp [walkResult, isAuthorizedServiceAccount, h]

theorem walkResult_nil (lookup : Lookup) (reqc : ReqContext) :
    walkResult lookup reqc [] = some false := rfl

theorem TrimSpace_nil : strings.TrimSpace [] = [] := rfl

theorem MatchPattern_nil (value : Str) : MatchPattern [] value = true := by
  rw [MatchPattern_eq]
  simp [TrimSpace_nil]

theorem check_eq_true {reqc : ReqContext} :
    ∀ {l : List RequestMatchPattern}, check reqc l = true ↔ ∃ v ∈ l, v.Match reqc = true := by
  intro l
  induction l with
  | nil => simp [check]
  | cons e rest ih =>
    simp only [check, List.mem_cons, exists_eq_or_imp]
    by_cases h : e.Match reqc = true
    · simp [h]
    · simp [h, ih]

/-- The all-empty pattern matches exactly the request contexts with at least
one caller group: eight fields are wildcards, the loop over the groups needs a
group to run on. -/
theorem Match_all_empty_iff (reqc : ReqContext) :
    RequestMatchPattern.Match {} reqc = true ↔ reqc.UserGroups ≠ [] := by
  simp only [RequestMatchPattern.Match, MatchPattern_nil, Bool.true_and]
  cases reqc.UserGroups with
  | nil => simp [MatchPatternWithArray]
  | cons g gs => simp [MatchPatternWithArray, MatchPattern_nil]

/-! ### The policy types -/

theorem PolicyType_distinct :
    DefaultPolicy ≠ UnknownPolicy ∧ IEPolicy ≠ UnknownPolicy ∧ SignerPolicy ≠ UnknownPolicy ∧
    CustomPolicy ≠ UnknownPolicy ∧ DefaultPolicy ≠ IEPolicy ∧ DefaultPolicy ≠ SignerPolicy ∧
    DefaultPolicy ≠ CustomPolicy ∧ IEPolicy ≠ SignerPolicy ∧ IEPolicy ≠ CustomPolicy ∧
    SignerPolicy ≠ CustomPolicy := by
  decide

/-- What `CheckFormat` returns, by the type of the policy. -/
theorem CheckFormat_cases (self : Policy) :
    (self.PolicyType = UnknownPolicy →
      self.CheckFormat = (false, "\"policyType\" must be set for any Policy".toList)) ∧
    ((self.PolicyType = DefaultPolicy ∨ self.PolicyType = IEPolicy) →
      self.CheckFormat =
        if self.Namespace ≠ [] then
          (false, "\"namespace\" must be empty for ".toList ++ self.PolicyType)
        else (true, [])) ∧
    (self.PolicyType = SignerPolicy →
      self.CheckFormat =
        if self.Namespace ≠ [] then
          (false, "\"namespace\" must be empty for ".toList ++ self.PolicyType)
        else if self.Enforce ≠ [] ∨ self.IgnoreRequest ≠ [] ∨
            self.AllowedForInternalRequest ≠ [] ∨ self.AllowedByRule ≠ [] ∨
            self.AllowedChange ≠ [] ∨ self.PermitIfVerifiedOwner ≠ [] ∨
            self.PermitIfCreator ≠ [] then
          (false, self.PolicyType ++ " must contain only AllowedSigner rule".toList)
        else (true, [])) ∧
    (self.PolicyType = CustomPolicy →
      self.CheckFormat =
        if self.Namespace = [] then
          (false, "\"namespace\" must be specified for ".toList ++ self.PolicyType)
        else if self.AllowedSigner ≠ [] then
          (false, self.PolicyType ++ " must not contain AllowedSigner rule".toList)
        else (true, [])) ∧
    (self.PolicyType ≠ UnknownPolicy → self.PolicyType ≠ DefaultPolicy →
      self.PolicyType ≠ IEPolicy → self.PolicyType ≠ SignerPolicy →
      self.PolicyType ≠ CustomPolicy → self.CheckFormat = (true, [])) := by
  obtain ⟨d1, d2, d3, d4, d5, d6, d7, d8, d9, d10⟩ := PolicyType_distinct
  refine ⟨?_, ?_, ?_, ?_, ?_⟩
  · intro h
    simp [Policy.CheckFormat, h]
  · intro h
    have hu : self.PolicyType ≠ UnknownPolicy := by rcases h with h | h <;> rw [h] <;> assumption
    have hs : self.PolicyType ≠ SignerPolicy := by rcases h with h | h <;> rw [h] <;> assumption
    have hc : self.PolicyType ≠ CustomPolicy := by rcases h with h | h <;> rw [h] <;> assumption
    by_cases hns : self.Namespace = []
    · simp [Policy.CheckFormat, hu, hs, hc, hns]
    · have hor : self.PolicyType = DefaultPolicy ∨ self.PolicyType = IEPolicy ∨
          self.PolicyType = SignerPolicy := by
        rcases h with h | h
        · exact Or.inl h
        · exact Or.inr (Or.inl h)
      simp [Policy.CheckFormat, hu, hns, hor]
  · intro h
    by_cases hns : self.Namespace = []
    · simp [Policy.CheckFormat, h, d3, d10, hns, List.length_pos, or_assoc]
    · simp [Policy.CheckFormat, h, d3, hns]
  · intro h
    by_cases hns : self.Namespace = []
    · simp [Policy.CheckFormat, h, d4, hns]
    · simp [Policy.CheckFormat, h, d4, d7.symm, d9.symm, d10.symm, hns, List.length_pos]
  · intro hu hd hi hs hc
    simp [Policy.CheckFormat, hu, hd, hi, hs, hc]


/-! ### More on `MatchPattern` -/

theorem TrimSpace_eq_nil_of_forall {e : Str} (h : ∀ c ∈ e, unicode.IsSpace c = true) :
    strings.TrimSpace e = [] := by
  unfold strings.TrimSpace
  rw [List.dropWhile_eq_nil_iff.2 h]
  rfl

theorem HasPrefix_iff (s pre : Str) : strings.HasPrefix s pre = true ↔ pre <+: s := by
  unfold strings.HasPrefix
  exact List.isPrefixOf_iff_prefix


/-! ### The walk as a whole -/

theorem ReqContext_update_self (reqc : ReqContext) :
    ({ reqc with ServiceAccount := reqc.ServiceAccount } : ReqContext) = reqc := by
  cases reqc
  rfl

/-- Filling the slot with what the walk may put there does not change the
identity later entries resolve. -/
theorem resolvedServiceAccount_update (lookup : Lookup) (reqc : ReqContext)
    (slot : Option ServiceAccount)
    (h : slot = reqc.ServiceAccount ∨
      (slot = resolvedServiceAccount lookup reqc ∧ slot ≠ none)) :
    resolvedServiceAccount lookup { reqc with ServiceAccount := slot } =
      resolvedServiceAccount lookup reqc := by
  rcases h with h | ⟨h, hne⟩
  · rw [h, ReqContext_update_self]
  · cases hs : slot with
    | none => exact absurd hs hne
    | some sa =>
      rw [hs] at h
      rw [← h]
      rfl

theorem entrySucceeds_update (lookup : Lookup) (reqc : ReqContext)
    (slot : Option ServiceAccount)
    (h : slot = reqc.ServiceAccount ∨
      (slot = resolvedServiceAccount lookup reqc ∧ slot ≠ none))
    (p : AllowedUserPattern) :
    entrySucceeds lookup { reqc with ServiceAccount := slot } p = entrySucceeds lookup reqc p := by
  unfold entrySucceeds
  rw [resolvedServiceAccount_update lookup reqc slot h]
  rfl

/-- The loop body returns true exactly on an entry that succeeds, and leaves in
the slot what was there or the identity it resolved. -/
theorem loopBody_spec (lookup : Lookup) (reqc : ReqContext) (p : AllowedUserPattern) :
    ∃ slot, (slot = reqc.ServiceAccount ∨
        (slot = resolvedServiceAccount lookup reqc ∧ slot ≠ none)) ∧
      loopBody lookup reqc p =
        if entrySucceeds lookup reqc p = true then
          Outcome.ret true { reqc with ServiceAccount := slot }
        else Outcome.next { reqc with ServiceAccount := slot } := by
  rw [loopBody_eq]
  unfold entrySucceeds
  by_cases hm : p.Request.Match reqc = false
  · exact ⟨reqc.ServiceAccount, Or.inl rfl, by simp [hm, ReqContext_update_self]⟩
  · rw [Bool.not_eq_false] at hm
    by_cases hany : p.AuthorizedServiceAccount.any
        (fun au => MatchPattern au (afterLastColon reqc.UserName)) = true
    · exact ⟨reqc.ServiceAccount, Or.inl rfl, by simp [hm, hany, ReqContext_update_self]⟩
    · by_cases hf : p.AllowChangesBySignedServiceAccount = true
      · cases hr : resolvedServiceAccount lookup reqc with
        | none =>
          exact ⟨reqc.ServiceAccount, Or.inl rfl, by simp [hm, hany, hf, ReqContext_update_self]⟩
        | some sa =>
          refine ⟨some sa, Or.inr ⟨rfl, by simp⟩, ?_⟩
          by_cases ht : trusted sa
          · simp [hm, hany, hf, ht]
          · simp [hm, hany, hf, ht]
      · exact ⟨reqc.ServiceAccount, Or.inl rfl, by simp [hm, hany, hf, ReqContext_update_self]⟩

/-- The walk never panics. It returns true exactly when some entry succeeds on
the initial request context, and it leaves the request context as it was but
for the slot, which holds what it held or the identity resolved. -/
theorem walk_spec (lookup : Lookup) (patterns : List AllowedUserPattern) :
    ∀ reqc : ReqContext, ∃ slot,
      (slot = reqc.ServiceAccount ∨
        (slot = resolvedServiceAccount lookup reqc ∧ slot ≠ none)) ∧
      isAuthorizedServiceAccount lookup reqc patterns =
        some (patterns.any (entrySucceeds lookup reqc),
          { reqc with ServiceAccount := slot }) := by
  induction patterns with
  | nil =>
    intro reqc
    exact ⟨reqc.ServiceAccount, Or.inl rfl, by
      simp [isAuthorizedServiceAccount, ReqContext_update_self]⟩
  | cons p rest ih =>
    intro reqc
    obtain ⟨slot, hslot, hbody⟩ := loopBody_spec lookup reqc p
    by_cases hs : entrySucceeds lookup reqc p = true
    · rw [if_pos hs] at hbody
      exact ⟨slot, hslot, by simp [isAuthorizedServiceAccount, hbody, hs]⟩
    · rw [if_neg hs] at hbody
      obtain ⟨slot1, hslot1, hrest⟩ := ih { reqc with ServiceAccount := slot }
      refine ⟨slot1, ?_, ?_⟩
      · rcases hslot1 with h1 | ⟨h1, h2⟩
        · rw [h1]
          exact hslot
        · rw [resolvedServiceAccount_update lookup reqc slot hslot] at h1
          exact Or.inr ⟨h1, h2⟩
      · have hany : rest.any (entrySucceeds lookup { reqc with ServiceAccount := slot }) =
            rest.any (entrySucceeds lookup reqc) := by
          congr 1
          funext q
          exact entrySucceeds_update lookup reqc slot hslot q
        rw [Bool.not_eq_true] at hs
        simp only [isAuthorizedServiceAccount, hbody, hrest, hany, List.any_cons, hs,
          Bool.false_or]

theorem walkResult_eq (lookup : Lookup) (reqc : ReqContext)
    (patterns : List AllowedUserPattern) :
    walkResult lookup reqc patterns = some (patterns.any (entrySucceeds lookup reqc)) := by
  obtain ⟨slot, _, h⟩ := walk_spec lookup patterns reqc
  simp [walkResult, h]

/-- With the slot filled, nothing depends on the lookup. -/
theorem entrySucceeds_of_slot (lookup1 lookup2 : Lookup) (reqc : ReqContext)
    (sa : ServiceAccount) (h : reqc.ServiceAccount = some sa) (p : AllowedUserPattern) :
    entrySucceeds lookup1 reqc p = entrySucceeds lookup2 reqc p := by
  unfold entrySucceeds resolvedServiceAccount
  simp only [h]

theorem resolvedServiceAccount_of_slot (lookup : Lookup) (reqc : ReqContext)
    (sa : ServiceAccount) (h : reqc.ServiceAccount = some sa) :
    resolvedServiceAccount lookup reqc = some sa := by
  unfold resolvedServiceAccount
  simp only [h]

/-- With the slot empty, a resolved identity is the answer of the lookup for the
last and the second-to-last segment of a caller name starting with `system:`. -/
theorem resolvedServiceAccount_of_empty_slot (lookup : Lookup) (reqc : ReqContext)
    (sa : ServiceAccount) (h : reqc.ServiceAccount = none)
    (hr : resolvedServiceAccount lookup reqc = some sa) :
    strings.HasPrefix reqc.UserName "system:".toList = true ∧
    ∃ saName namespace_,
      index (strings.Split ':' reqc.UserName)
        (((strings.Split ':' reqc.UserName).length : Int) - 1) = some saName ∧
      index (strings.Split ':' reqc.UserName)
        (((strings.Split ':' reqc.UserName).length : Int) - 2) = some namespace_ ∧
      lookup saName namespace_ = some sa := by
  unfold resolvedServiceAccount at hr
  simp only [h] at hr
  by_cases hp : strings.HasPrefix reqc.UserName "system:".toList = true
  · refine ⟨hp, ?_⟩
    rw [if_pos hp] at hr
    cases h1 : index (strings.Split ':' reqc.UserName)
        (((strings.Split ':' reqc.UserName).length : Int) - 1) with
    | none => simp [h1] at hr
    | some a =>
      cases h2 : index (strings.Split ':' reqc.UserName)
          (((strings.Split ':' reqc.UserName).length : Int) - 2) with
      | none => simp [h1, h2] at hr
      | some b =>
        simp only [h1, h2] at hr
        exact ⟨a, b, rfl, rfl, hr⟩
  · rw [if_neg hp] at hr
    exact absurd hr (by simp)

/-- The walk over `xs ++ ys` is the walk over `xs`, followed, when that one
returns false, by the walk over `ys` from the request context it leaves. -/
theorem walk_append (lookup : Lookup) (xs ys : List AllowedUserPattern) :
    ∀ reqc : ReqContext,
      isAuthorizedServiceAccount lookup reqc (xs ++ ys) =
        match isAuthorizedServiceAccount lookup reqc xs with
        | some (true, reqc1) => some (true, reqc1)
        | some (false, reqc1) => isAuthorizedServiceAccount lookup reqc1 ys
        | none => none := by
  induction xs with
  | nil => intro reqc; rfl
  | cons p rest ih =>
    intro reqc
    obtain ⟨sa, h | h⟩ := loopBody_cases lookup reqc p
    · simp [isAuthorizedServiceAccount, h]
    · simp only [List.cons_append, isAuthorizedServiceAccount, h]
      exact ih _


/-! ## The claims -/

/-- C1: a `RequestMatchPattern` whose nine fields are all empty is meant to match
every request context. On a request context whose caller group set is empty the
code returns false: `MatchPatternWithArray` ranges over the groups and finds
none to try the (wildcard) pattern on. -/
theorem Match_all_empty_without_groups :
    RequestMatchPattern.Match
      { Namespace := [], Name := [], Operation := [], ApiVersion := [], Kind := [],
        UserName := [], Type_ := [], K8sCreatedBy := [], UserGroup := [] }
      { Namespace := "default".toList, Kind := "ConfigMap".toList,
        UserName := "alice".toList, UserGroups := [] } = false := by
  decide

/-- C2: the precedence law. When `IsIgnoreRequest` is true, `IsEnforceResult` is
false whatever the `Enforce` list holds; when `IsIgnoreRequest` is false,
`IsEnforceResult` is true exactly when the policy is present and one of its
`Enforce` patterns matches the request. -/
theorem IsEnforceResult_precedence (policy : Option Policy) (reqc : ReqContext) :
    (IsIgnoreRequest policy reqc = true → IsEnforceResult policy reqc = false) ∧
    (IsIgnoreRequest policy reqc = false →
      (IsEnforceResult policy reqc = true ↔
        ∃ p, policy = some p ∧ ∃ v ∈ p.Enforce, v.Match reqc = true)) := by
  constructor
  · intro h
    simp [IsEnforceResult, h]
  · intro h
    cases policy with
    | none => simp [IsEnforceResult, h]
    | some p => simp [IsEnforceResult, h, check_eq_true]

/-- The precedence law of C2 at a policy whose `IgnoreRequest` and `Enforce`
lists both match the request. -/
theorem IsEnforceResult_precedence_witness :
    IsIgnoreRequest
        (some { Enforce := [{ Kind := "ConfigMap".toList }],
                IgnoreRequest := [{ Namespace := "kube-system".toList }] })
        { Namespace := "kube-system".toList, Kind := "ConfigMap".toList,
          UserGroups := ["system:authenticated".toList] } = true ∧
    IsEnforceResult
        (some { Enforce := [{ Kind := "ConfigMap".toList }],
                IgnoreRequest := [{ Namespace := "kube-system".toList }] })
        { Namespace := "kube-system".toList, Kind := "ConfigMap".toList,
          UserGroups := ["system:authenticated".toList] } = false :=
  ⟨by decide, (IsEnforceResult_precedence _ _).1 (by decide)⟩

/-- C3, as stated: over one entry that matches the request and lists identity
patterns, the walk is true only when a listed pattern matches. It is false for
an entry that lists `deployer`, has the signed-service-account flag set, and is
asked about the caller `builder` whose service account carries
`integrityVerified = "true"`: no listed pattern matches and the walk returns
true. -/
theorem walk_listed_entry_counterexample :
    ¬ (walkResult (lookupBuilder [("integrityVerified".toList, "true".toList)]) builderRequest
          [{ AllowChangesBySignedServiceAccount := true,
             AuthorizedServiceAccount := ["deployer".toList],
             Request := { Kind := "ConfigMap".toList } }] = some true ↔
        ∃ au ∈ ["deployer".toList],
          MatchPattern au (afterLastColon builderRequest.UserName) = true) := by
  decide

/-- C3, amended: over one entry that matches the request (and lists identity
patterns, though the statement does not need it), the walk returns true if and only if a listed pattern matches the
caller name after its last `:`, or the walk over the same entry with its list
emptied returns true (the signed-service-account step runs after the list, not
instead of it); when the flag `AllowChangesBySignedServiceAccount` is not set,
the walk returns true if and only if a listed pattern matches. -/
theorem walk_listed_entry (lookup : Lookup) (reqc : ReqContext) (p : AllowedUserPattern)
    (hm : p.Request.Match reqc = true) :
    (walkResult lookup reqc [p] = some true ↔
      (∃ au ∈ p.AuthorizedServiceAccount,
          MatchPattern au (afterLastColon reqc.UserName) = true) ∨
        walkResult lookup reqc [{ p with AuthorizedServiceAccount := [] }] = some true) ∧
    (p.AllowChangesBySignedServiceAccount = false →
      (walkResult lookup reqc [p] = some true ↔
        ∃ au ∈ p.AuthorizedServiceAccount,
          MatchPattern au (afterLastColon reqc.UserName) = true)) := by
  have hany : (∃ au ∈ p.AuthorizedServiceAccount,
        MatchPattern au (afterLastColon reqc.UserName) = true) ↔
      p.AuthorizedServiceAccount.any
        (fun au => MatchPattern au (afterLastColon reqc.UserName)) = true := by
    simp [List.any_eq_true]
  have hm1 : ({ p with AuthorizedServiceAccount := [] } : AllowedUserPattern).Request.Match reqc
      = true := hm
  rw [hany]
  simp only [walkResult, isAuthorizedServiceAccount, loopBody_eq, hm, hm1, Bool.true_eq_false,
    if_false, List.any_nil, Bool.false_eq_true]
  cases p.AuthorizedServiceAccount.any
      (fun au => MatchPattern au (afterLastColon reqc.UserName)) with
  | true => simp
  | false =>
    constructor
    · simp
    · intro hf
      simp [hf]

/-- The amended C3 at an entry that lists `builder` and the request of the
service account `builder`. -/
theorem walk_listed_entry_witness :
    walkResult (lookupBuilder []) builderRequest
        [{ AuthorizedServiceAccount := ["builder".toList],
           Request := { Kind := "ConfigMap".toList } }] = some true ↔
      ∃ au ∈ ["builder".toList],
        MatchPattern au (afterLastColon builderRequest.UserName) = true :=
  (walk_listed_entry (lookupBuilder []) builderRequest
    { AuthorizedServiceAccount := ["builder".toList], Request := { Kind := "ConfigMap".toList } }
    (by decide)).2 rfl

/-- C4, as stated: a malformed annotation value counts as an absent annotation,
so that the other annotation still decides. It is false for a service account
with `integrityVerified = "not-a-bool"` and `integrityUnverified = "true"`: one
annotation reads true and the walk returns false. -/
theorem walk_trust_annotations_counterexample :
    ¬ (walkResult
          (lookupBuilder [("integrityVerified".toList, "not-a-bool".toList),
            ("integrityUnverified".toList, "true".toList)])
          builderRequest
          [{ AllowChangesBySignedServiceAccount := true, AuthorizedServiceAccount := [],
             Request := { Kind := "ConfigMap".toList } }] = some true ↔
        (annotationIs
            { Annotations := [("integrityVerified".toList, "not-a-bool".toList),
                ("integrityUnverified".toList, "true".toList)] }
            "integrityVerified".toList true ∨
          annotationIs
            { Annotations := [("integrityVerified".toList, "not-a-bool".toList),
                ("integrityUnverified".toList, "true".toList)] }
            "integrityUnverified".toList true)) := by
  decide

/-- C4, amended: over one entry that matches the request, lists no identity
pattern and has the flag set, with the service identity resolved to `sa`, the
walk returns true if and only if `integrityVerified` is present and reads true,
or `integrityVerified` is absent or reads false and `integrityUnverified` is
present and reads true. A malformed `integrityUnverified` counts as absent; a
malformed `integrityVerified` ends the entry, `integrityUnverified` not being
inspected. The walk returns false in every other case. -/
theorem walk_trust_annotations (lookup : Lookup) (reqc : ReqContext) (p : AllowedUserPattern)
    (sa : ServiceAccount) (hm : p.Request.Match reqc = true)
    (hl : p.AuthorizedServiceAccount = [])
    (hf : p.AllowChangesBySignedServiceAccount = true)
    (hr : resolvedServiceAccount lookup reqc = some sa) :
    (walkResult lookup reqc [p] = some true ↔
      annotationIs sa "integrityVerified".toList true ∨
        ((sa.Annotations.lookup "integrityVerified".toList = none ∨
            annotationIs sa "integrityVerified".toList false) ∧
          annotationIs sa "integrityUnverified".toList true)) ∧
    (walkResult lookup reqc [p] = some true ∨ walkResult lookup reqc [p] = some false) := by
  have hb : loopBody lookup reqc p =
      if trusted sa then Outcome.ret true { reqc with ServiceAccount := some sa }
      else Outcome.next { reqc with ServiceAccount := some sa } := by
    rw [loopBody_eq]
    simp [hm, hl, hf, hr]
  show (walkResult lookup reqc [p] = some true ↔ trusted sa) ∧ _
  by_cases ht : trusted sa
  · rw [if_pos ht] at hb
    simp [walkResult_cons_ret hb, ht]
  · rw [if_neg ht] at hb
    simp [walkResult_cons_next hb, walkResult_nil, ht]

/-- The amended C4 at a service account found by the lookup whose
`integrityVerified` reads false and whose `integrityUnverified` reads true. -/
theorem walk_trust_annotations_witness :
    walkResult
        (lookupBuilder [("integrityVerified".toList, "false".toList),
          ("integrityUnverified".toList, "true".toList)])
        builderRequest
        [{ AllowChangesBySignedServiceAccount := true, AuthorizedServiceAccount := [],
           Request := { Kind := "ConfigMap".toList } }] = some true :=
  ((walk_trust_annotations
      (lookupBuilder [("integrityVerified".toList, "false".toList),
        ("integrityUnverified".toList, "true".toList)])
      builderRequest
      { AllowChangesBySignedServiceAccount := true, AuthorizedServiceAccount := [],
        Request := { Kind := "ConfigMap".toList } }
      { Annotations := [("integrityVerified".toList, "false".toList),
          ("integrityUnverified".toList, "true".toList)] }
      (by decide) rfl rfl (by decide)).1).2 (by decide)

/-- C5, as stated: `MatchPattern "-" v` is true only for the empty `v`. It is
false at `v = "-"`, which the exact-match rule accepts. -/
theorem MatchPattern_dash_counterexample :
    ¬ (MatchPattern "-".toList "-".toList = true ↔ "-".toList = ([] : Str)) := by
  decide

/-- C5, amended: `MatchPattern "-" v` is true if and only if `v` is the empty
string or `v` is `"-"` itself. -/
theorem MatchPattern_dash (value : Str) :
    MatchPattern "-".toList value = true ↔ value = [] ∨ value = "-".toList := by
  have ht : strings.TrimSpace "-".toList = ['-'] := by decide
  have hs : strings.HasSuffix ['-'] ['*'] = false := by decide
  rw [MatchPattern_eq]
  simp only [ht, hs]
  have hc : strings.Contains ['-'] ',' = false := by decide
  simp only [hc]
  by_cases h1 : value = []
  · simp [h1]
  · by_cases h2 : value = ['-']
    · simp [h2]
    · have h3 : ¬ (['-'] = value) := fun h => h2 h.symm
      simp [h1, h2, h3]

/-- C6: the comma-list rule. For a pattern that contains a comma and whose
trimmed form neither ends in `*` nor equals the value, `MatchPattern` is true
exactly when one of the pieces of the pattern, split on `,` and trimmed, matches
the value by `MatchPattern`; `"a,b,c"` matches `"b"` and not `"d"`, and `"a, b"`
matches `"b"`. -/
theorem MatchPattern_comma_list :
    (∀ p v : Str, ',' ∈ p →
      strings.HasSuffix (strings.TrimSpace p) ['*'] = false →
      strings.TrimSpace p ≠ v →
      (MatchPattern p v = true ↔
        ∃ e ∈ (strings.Split ',' p).map strings.TrimSpace, MatchPattern e v = true)) ∧
    MatchPattern "a,b,c".toList "b".toList = true ∧
    MatchPattern "a,b,c".toList "d".toList = false ∧
    MatchPattern "a, b".toList "b".toList = true := by
  refine ⟨?_, by decide, by decide, by decide⟩
  intro p v hc hs hne
  have hmem : ',' ∈ strings.TrimSpace p := mem_TrimSpace_of_mem (by decide) hc
  have h1 : strings.TrimSpace p ≠ [] := fun h => by rw [h] at hmem; simp at hmem
  have h2 : strings.TrimSpace p ≠ ['*'] := fun h => by rw [h] at hmem; simp at hmem
  have h3 : strings.TrimSpace p ≠ ['-'] := fun h => by rw [h] at hmem; simp at hmem
  have h4 : strings.Contains (strings.TrimSpace p) ',' = true := by
    simpa [strings.Contains] using hmem
  rw [MatchPattern_eq]
  simp only [h1, h2, h3, hs, hne, h4, false_and, if_false, if_true, Bool.false_eq_true]
  rw [MatchWithPatternArray_eq_true, SplitRule_TrimSpace]
  rfl

/-- The comma-list rule of C6 at the pattern `"a, b"` and the value `"b"`. -/
theorem MatchPattern_comma_list_witness :
    MatchPattern "a, b".toList "b".toList = true ↔
      ∃ e ∈ (strings.Split ',' "a, b".toList).map strings.TrimSpace,
        MatchPattern e "b".toList = true :=
  MatchPattern_comma_list.1 "a, b".toList "b".toList (by decide) (by decide) (by decide)

/-- C7: a `SignerPolicy` is meant to hold rules in no list but `AllowedSigner`.
The code tests seven of the eight other lists and leaves `AllowUnverified` out:
a `SignerPolicy` with an empty namespace and one `AllowUnverified` rule passes
`CheckFormat`. -/
theorem CheckFormat_signer_with_AllowUnverified :
    Policy.CheckFormat
      { PolicyType := SignerPolicy, Namespace := [],
        AllowUnverified := [{ Namespace := "dev".toList }] } = (true, []) := by
  decide

/-- C8: every one of the nine rule lists of `Merge A B` is the list of `A`
followed by the list of `B`. -/
theorem Merge_lists (A B : Policy) :
    (A.Merge B).Enforce = A.Enforce ++ B.Enforce ∧
    (A.Merge B).IgnoreRequest = A.IgnoreRequest ++ B.IgnoreRequest ∧
    (A.Merge B).AllowedSigner = A.AllowedSigner ++ B.AllowedSigner ∧
    (A.Merge B).AllowedForInternalRequest =
      A.AllowedForInternalRequest ++ B.AllowedForInternalRequest ∧
    (A.Merge B).AllowedByRule = A.AllowedByRule ++ B.AllowedByRule ∧
    (A.Merge B).AllowedChange = A.AllowedChange ++ B.AllowedChange ∧
    (A.Merge B).PermitIfVerifiedOwner = A.PermitIfVerifiedOwner ++ B.PermitIfVerifiedOwner ∧
    (A.Merge B).PermitIfCreator = A.PermitIfCreator ++ B.PermitIfCreator ∧
    (A.Merge B).AllowUnverified = A.AllowUnverified ++ B.AllowUnverified :=
  ⟨rfl, rfl, rfl, rfl, rfl, rfl, rfl, rfl, rfl⟩

/-- C9: when some entry of the sequence matches the request and lists a pattern
that matches the caller name after its last `:`, the walk returns true, whatever
the entries before it are and whatever the lookup answers: no earlier entry
aborts the walk. -/
theorem walk_authorized_entry (lookup : Lookup) (patterns : List AllowedUserPattern)
    (reqc : ReqContext)
    (h : ∃ p ∈ patterns, p.Request.Match reqc = true ∧
      ∃ au ∈ p.AuthorizedServiceAccount,
        MatchPattern au (afterLastColon reqc.UserName) = true) :
    walkResult lookup reqc patterns = some true := by
  induction patterns generalizing reqc with
  | nil => simp at h
  | cons q rest ih =>
    obtain ⟨sa, hq | hq⟩ := loopBody_cases lookup reqc q
    · exact walkResult_cons_ret hq rest
    · rw [walkResult_cons_next hq]
      apply ih
      obtain ⟨p, hp, hm, au, hau, hmatch⟩ := h
      rcases List.mem_cons.1 hp with hpq | hp1
      · exfalso
        subst hpq
        have hany : p.AuthorizedServiceAccount.any
            (fun au => MatchPattern au (afterLastColon reqc.UserName)) = true :=
          List.any_eq_true.2 ⟨au, hau, hmatch⟩
        rw [loopBody_eq] at hq
        simp [hm, hany] at hq
      · exact ⟨p, hp1, hm, au, hau, hmatch⟩

/-- C9 at a walk of three entries: the first does not match the request, the
second trusts a service account whose annotation is malformed, the third lists
the caller. -/
theorem walk_authorized_entry_witness :
    walkResult (lookupBuilder [("integrityVerified".toList, "maybe".toList)]) builderRequest
        [{ AuthorizedServiceAccount := ["builder".toList],
           Request := { Namespace := "prod".toList } },
         { AllowChangesBySignedServiceAccount := true,
           Request := { Kind := "ConfigMap".toList } },
         { AuthorizedServiceAccount := ["deployer".toList, "builder".toList],
           Request := { Namespace := "ci".toList } }] = some true :=
  walk_authorized_entry _ _ builderRequest
    ⟨{ AuthorizedServiceAccount := ["deployer".toList, "builder".toList],
       Request := { Namespace := "ci".toList } },
      by decide, by decide, "builder".toList, by decide, by decide⟩

/-- C10: the end-to-end example. With every attribute of the request but `Kind`
and `Namespace` empty, the caller group set is empty, the `IgnoreRequest`
pattern does not match, and `IsIgnoreRequest` is false where the example expects
true (`IsEnforceResult` is false as well, the `Enforce` pattern failing the same
way). -/
theorem end_to_end_example :
    IsIgnoreRequest
        (some { Enforce := [{ Kind := "ConfigMap".toList }],
                IgnoreRequest := [{ Namespace := "kube-system".toList }] })
        { Namespace := "kube-system".toList, Kind := "ConfigMap".toList } = false ∧
    IsEnforceResult
        (some { Enforce := [{ Kind := "ConfigMap".toList }],
                IgnoreRequest := [{ Namespace := "kube-system".toList }] })
        { Namespace := "kube-system".toList, Kind := "ConfigMap".toList } = false := by
  decide

/-- C11: the namespace invariant of `CheckFormat`. A policy of type
`DefaultPolicy`, `IEPolicy` or `SignerPolicy` with a non-empty namespace is
rejected; a `CustomPolicy` with an empty namespace is rejected; a `CustomPolicy`
with a non-empty namespace and no `AllowedSigner` rule is accepted. -/
theorem CheckFormat_namespace (self : Policy) :
    (self.Namespace ≠ [] →
      (self.PolicyType = DefaultPolicy ∨ self.PolicyType = IEPolicy ∨
        self.PolicyType = SignerPolicy) →
      self.CheckFormat.1 = false) ∧
    (self.PolicyType = CustomPolicy → self.Namespace = [] → self.CheckFormat.1 = false) ∧
    (self.PolicyType = CustomPolicy → self.Namespace ≠ [] → self.AllowedSigner = [] →
      self.CheckFormat = (true, [])) := by
  refine ⟨?_, ?_, ?_⟩
  · intro hns ht
    have hu : self.PolicyType ≠ UnknownPolicy := by
      rcases ht with h | h | h <;> rw [h] <;> decide
    simp [Policy.CheckFormat, hu, hns, ht]
  · intro ht hns
    have hu : CustomPolicy ≠ UnknownPolicy := by decide
    simp [Policy.CheckFormat, ht, hns, hu]
  · intro ht hns hs
    have hu : CustomPolicy ≠ UnknownPolicy := by decide
    have h1 : CustomPolicy ≠ DefaultPolicy := by decide
    have h2 : CustomPolicy ≠ IEPolicy := by decide
    have h3 : CustomPolicy ≠ SignerPolicy := by decide
    simp [Policy.CheckFormat, ht, hns, hs, hu, h1, h2, h3]

/-- The namespace invariant of C11 at a signer policy with a namespace, a custom
policy without one, and a custom policy with one. -/
theorem CheckFormat_namespace_witness :
    Policy.CheckFormat
        { PolicyType := SignerPolicy, Namespace := "dev".toList }
      = (false, "\"namespace\" must be empty for SignerPolicy".toList) ∧
    (Policy.CheckFormat { PolicyType := CustomPolicy, Namespace := [] }).1 = false ∧
    Policy.CheckFormat
        { PolicyType := CustomPolicy, Namespace := "dev".toList,
          Enforce := [{ Kind := "ConfigMap".toList }] } = (true, []) :=
  ⟨by decide,
    (CheckFormat_namespace { PolicyType := CustomPolicy, Namespace := [] }).2.1 rfl rfl,
    (CheckFormat_namespace
      { PolicyType := CustomPolicy, Namespace := "dev".toList,
        Enforce := [{ Kind := "ConfigMap".toList }] }).2.2 rfl (by decide) rfl⟩

/-- C18: a merged policy never passes validation. `Merge A B` has an empty
namespace and an unset policy type, and `CheckFormat` rejects it with the
message for the unset type, whatever `A` and `B` are. -/
theorem CheckFormat_Merge (A B : Policy) :
    (A.Merge B).Namespace = [] ∧ (A.Merge B).PolicyType = UnknownPolicy ∧
    (A.Merge B).CheckFormat = (false, "\"policyType\" must be set for any Policy".toList) :=
  ⟨rfl, rfl, rfl⟩


/-- C12: `CheckFormat` fails only through its return pair. It returns
`(true, "")` or `(false, m)` with `m` non-empty; a message it returns is the
message of the first invariant the policy violates; and a policy that violates
several invariants gets the message of the first one in the order: type unset,
namespace rule, signer rule, custom rule. So a `SignerPolicy` with a namespace
and an `Enforce` rule, and a `CustomPolicy` without a namespace and with an
`AllowedSigner` rule, both get the namespace message. -/
theorem CheckFormat_first_violation :
    (∀ self : Policy,
      (self.CheckFormat = (true, []) ∨ ∃ m, m ≠ [] ∧ self.CheckFormat = (false, m)) ∧
      (∀ m, self.CheckFormat = (false, m) → (violatedInvariants self).head? = some m) ∧
      (2 ≤ (violatedInvariants self).length →
        ∃ m rest, violatedInvariants self = m :: rest ∧ self.CheckFormat = (false, m))) ∧
    Policy.CheckFormat
        { PolicyType := SignerPolicy, Namespace := "dev".toList,
          Enforce := [{ Kind := "ConfigMap".toList }] }
      = (false, "\"namespace\" must be empty for SignerPolicy".toList) ∧
    Policy.CheckFormat
        { PolicyType := CustomPolicy, Namespace := [],
          AllowedSigner := [{ Subject := { Email := "signer@example.com".toList } }] }
      = (false, "\"namespace\" must be specified for CustomPolicy".toList) := by
  obtain ⟨d1, d2, d3, d4, d5, d6, d7, d8, d9, d10⟩ := PolicyType_distinct
  refine ⟨?_, by decide, by decide⟩
  intro self
  obtain ⟨cU, cDI, cS, cC, cO⟩ := CheckFormat_cases self
  by_cases hU : self.PolicyType = UnknownPolicy
  · rw [cU hU]
    simp [violatedInvariants, hU, d1.symm, d2.symm, d3.symm, d4.symm]
  by_cases hD : self.PolicyType = DefaultPolicy
  · rw [cDI (Or.inl hD)]
    by_cases hns : self.Namespace = []
    · simp [violatedInvariants, hD, d1, d6, d7, hns]
    · simp [violatedInvariants, hD, d1, d6, d7, hns]
  by_cases hI : self.PolicyType = IEPolicy
  · rw [cDI (Or.inr hI)]
    by_cases hns : self.Namespace = []
    · simp [violatedInvariants, hI, d2, d8, d9, hns]
    · simp [violatedInvariants, hI, d2, d8, d9, hns]
  by_cases hS : self.PolicyType = SignerPolicy
  · rw [cS hS]
    by_cases hns : self.Namespace = []
    · by_cases h7 : self.Enforce ≠ [] ∨ self.IgnoreRequest ≠ [] ∨
          self.AllowedForInternalRequest ≠ [] ∨ self.AllowedByRule ≠ [] ∨
          self.AllowedChange ≠ [] ∨ self.PermitIfVerifiedOwner ≠ [] ∨
          self.PermitIfCreator ≠ []
      · have h8 : self.Enforce ≠ [] ∨ self.AllowUnverified ≠ [] ∨ self.IgnoreRequest ≠ [] ∨
            self.AllowedForInternalRequest ≠ [] ∨ self.AllowedByRule ≠ [] ∨
            self.AllowedChange ≠ [] ∨ self.PermitIfVerifiedOwner ≠ [] ∨
            self.PermitIfCreator ≠ [] := by
          rcases h7 with h | h
          · exact Or.inl h
          · exact Or.inr (Or.inr h)
        rw [if_neg (not_not.2 hns), if_pos h7]
        simp only [violatedInvariants, hS, d3, d10, hns, h8, if_true, if_false, false_and,
          and_self, true_and, ne_eq, not_true_eq_false]
        simp
      · rw [if_neg (not_not.2 hns), if_neg h7]
        by_cases h8 : self.Enforce ≠ [] ∨ self.AllowUnverified ≠ [] ∨ self.IgnoreRequest ≠ [] ∨
            self.AllowedForInternalRequest ≠ [] ∨ self.AllowedByRule ≠ [] ∨
            self.AllowedChange ≠ [] ∨ self.PermitIfVerifiedOwner ≠ [] ∨
            self.PermitIfCreator ≠ []
        · simp only [violatedInvariants, hS, d3, d10, hns, h8, if_true, if_false, false_and,
            and_self, true_and, ne_eq, not_true_eq_false]
          simp
        · simp only [violatedInvariants, hS, d3, d10, hns, h8, if_true, if_false, false_and,
            and_self, true_and, and_false, ne_eq, not_true_eq_false]
          simp
    · rw [if_pos hns]
      by_cases h8 : self.Enforce ≠ [] ∨ self.AllowUnverified ≠ [] ∨ self.IgnoreRequest ≠ [] ∨
          self.AllowedForInternalRequest ≠ [] ∨ self.AllowedByRule ≠ [] ∨
          self.AllowedChange ≠ [] ∨ self.PermitIfVerifiedOwner ≠ [] ∨
          self.PermitIfCreator ≠ []
      · simp only [violatedInvariants, hS, d3, d10, hns, h8, if_true, if_false, false_and,
          and_self, true_and, ne_eq, not_false_eq_true, or_true]
        simp
      · simp only [violatedInvariants, hS, d3, d10, hns, h8, if_true, if_false, false_and,
          and_self, true_and, and_false, ne_eq, not_false_eq_true, or_true]
        simp
  by_cases hC : self.PolicyType = CustomPolicy
  · rw [cC hC]
    by_cases hns : self.Namespace = []
    · by_cases hs : self.AllowedSigner = []
      · simp [violatedInvariants, hC, d4, d7.symm, d9.symm, d10.symm, hns, hs]
      · simp [violatedInvariants, hC, d4, d7.symm, d9.symm, d10.symm, hns, hs]
    · by_cases hs : self.AllowedSigner = []
      · simp [violatedInvariants, hC, d4, d7.symm, d9.symm, d10.symm, hns, hs]
      · simp [violatedInvariants, hC, d4, d7.symm, d9.symm, d10.symm, hns, hs]
  · rw [cO hU hD hI hS hC]
    simp [violatedInvariants, hU, hD, hI, hS, hC]

/-- C12 at a `SignerPolicy` with a namespace and an `Enforce` rule, which
violates two invariants. -/
theorem CheckFormat_first_violation_witness :
    ∃ m rest,
      violatedInvariants
          { PolicyType := SignerPolicy, Namespace := "dev".toList,
            Enforce := [{ Kind := "ConfigMap".toList }] } = m :: rest ∧
      Policy.CheckFormat
          { PolicyType := SignerPolicy, Namespace := "dev".toList,
            Enforce := [{ Kind := "ConfigMap".toList }] } = (false, m) :=
  (CheckFormat_first_violation.1
    { PolicyType := SignerPolicy, Namespace := "dev".toList,
      Enforce := [{ Kind := "ConfigMap".toList }] }).2.2 (by decide)


/-- C13: the prefix rule. For a pattern whose trimmed form ends in `*`,
`MatchPattern` is true exactly when the value starts with the trimmed pattern
stripped of all its trailing `*`; `"foo*"` matches `"foobar"` and not
`"barfoo"`, and `"*"` matches every value, the empty one included. -/
theorem MatchPattern_prefix_rule :
    (∀ p v : Str, strings.HasSuffix (strings.TrimSpace p) ['*'] = true →
      (MatchPattern p v = true ↔
        (strings.TrimSpace p).rdropWhile (fun x => x == '*') <+: v)) ∧
    MatchPattern "foo*".toList "foobar".toList = true ∧
    MatchPattern "foo*".toList "barfoo".toList = false ∧
    (∀ v : Str, MatchPattern "*".toList v = true) ∧
    MatchPattern "*".toList [] = true := by
  have main : ∀ p v : Str, strings.HasSuffix (strings.TrimSpace p) ['*'] = true →
      (MatchPattern p v = true ↔
        (strings.TrimSpace p).rdropWhile (fun x => x == '*') <+: v) := by
    intro p v hs
    have h1 : strings.TrimSpace p ≠ [] := fun h => by rw [h] at hs; exact absurd hs (by decide)
    have h3 : strings.TrimSpace p ≠ ['-'] := fun h => by rw [h] at hs; exact absurd hs (by decide)
    rw [MatchPattern_eq]
    by_cases h2 : strings.TrimSpace p = ['*']
    · simp [h2, List.rdropWhile]
    · simp only [h1, h2, h3, hs, false_and, if_false, if_true]
      rw [HasPrefix_iff]
      rfl
  refine ⟨main, by decide, by decide, ?_, by decide⟩
  intro v
  rw [MatchPattern_eq]
  have ht : strings.TrimSpace "*".toList = ['*'] := by decide
  simp only [ht]
  simp

/-- The prefix rule of C13 at the pattern `" kube-** "` and the value
`"kube-system"`. -/
theorem MatchPattern_prefix_rule_witness :
    MatchPattern " kube-** ".toList "kube-system".toList = true ↔
      (strings.TrimSpace " kube-** ".toList).rdropWhile (fun x => x == '*') <+:
        "kube-system".toList :=
  MatchPattern_prefix_rule.1 " kube-** ".toList "kube-system".toList (by decide)

/-- C14: `IsTrustStateEnforcementDisabled` is true exactly when the policy is
present and the namespace of some `AllowUnverified` entry equals the namespace
of the request as a string. No pattern is interpreted: the entries `"*"` and
`"kube-*"` do not disable enforcement for `"kube-system"`, and an entry with an
empty namespace matches only a request with an empty namespace. -/
theorem IsTrustStateEnforcementDisabled_iff :
    (∀ (policy : Option Policy) (reqc : ReqContext),
      IsTrustStateEnforcementDisabled policy reqc = true ↔
        ∃ p, policy = some p ∧ ∃ e ∈ p.AllowUnverified, e.Namespace = reqc.Namespace) ∧
    IsTrustStateEnforcementDisabled
        (some { AllowUnverified := [{ Namespace := "*".toList },
                  { Namespace := "kube-*".toList }] })
        { Namespace := "kube-system".toList } = false ∧
    (∀ reqc : ReqContext,
      IsTrustStateEnforcementDisabled (some { AllowUnverified := [{ Namespace := [] }] }) reqc
          = true ↔ reqc.Namespace = []) := by
  refine ⟨?_, by decide, ?_⟩
  · intro policy reqc
    cases policy with
    | none => simp [IsTrustStateEnforcementDisabled]
    | some p => simp [IsTrustStateEnforcementDisabled, List.any_eq_true]
  · intro reqc
    simp [IsTrustStateEnforcementDisabled, eq_comm]

/-- C15: `Match` is true exactly when `MatchPattern` holds for namespace, name,
operation, kind, user name, type and created-by tag against the attribute of
the request, and for the API version against `group/version` (the version alone
when the group is empty), and the user-group pattern matches at least one of
the caller groups. -/
theorem Match_iff (v : RequestMatchPattern) (reqc : ReqContext) :
    v.Match reqc = true ↔
      MatchPattern v.Namespace reqc.Namespace = true ∧
      MatchPattern v.Name reqc.Name = true ∧
      MatchPattern v.Operation reqc.Operation = true ∧
      MatchPattern v.Kind reqc.Kind = true ∧
      MatchPattern v.ApiVersion
        (if reqc.ApiGroup ≠ [] then reqc.ApiGroup ++ "/".toList ++ reqc.ApiVersion
          else reqc.ApiVersion) = true ∧
      MatchPattern v.UserName reqc.UserName = true ∧
      MatchPattern v.Type_ reqc.Type_ = true ∧
      MatchPattern v.K8sCreatedBy reqc.K8sCreatedBy = true ∧
      ∃ g ∈ reqc.UserGroups, MatchPattern v.UserGroup g = true := by
  have hgv : GroupVersion.String reqc.ApiGroup reqc.ApiVersion =
      (if reqc.ApiGroup ≠ [] then reqc.ApiGroup ++ "/".toList ++ reqc.ApiVersion
        else reqc.ApiVersion) := by
    unfold GroupVersion.String
    by_cases h : reqc.ApiGroup = []
    · simp [h]
    · simp [h, List.length_pos]
  unfold RequestMatchPattern.Match
  simp only [hgv, Bool.and_eq_true, MatchPatternWithArray_eq_true, and_assoc]

/-- C19: an empty piece turns a comma list into a wildcard. For a pattern whose
trimmed form contains a comma and does not end in `*`, if splitting the pattern
(as given, or trimmed) on `,` yields a piece that is empty or all white space,
`MatchPattern` is true for every value; so for `"a,"`, `",a"`, `"a,,b"` and
`"a, ,b"`. -/
theorem MatchPattern_empty_piece :
    (∀ p v : Str, ',' ∈ strings.TrimSpace p →
      strings.HasSuffix (strings.TrimSpace p) ['*'] = false →
      ((∃ e ∈ strings.Split ',' p, ∀ c ∈ e, unicode.IsSpace c = true) ∨
        (∃ e ∈ strings.Split ',' (strings.TrimSpace p), ∀ c ∈ e, unicode.IsSpace c = true)) →
      MatchPattern p v = true) ∧
    (∀ v : Str, MatchPattern "a,".toList v = true ∧ MatchPattern ",a".toList v = true ∧
      MatchPattern "a,,b".toList v = true ∧ MatchPattern "a, ,b".toList v = true) := by
  have main : ∀ p v : Str, ',' ∈ strings.TrimSpace p →
      strings.HasSuffix (strings.TrimSpace p) ['*'] = false →
      ((∃ e ∈ strings.Split ',' p, ∀ c ∈ e, unicode.IsSpace c = true) ∨
        (∃ e ∈ strings.Split ',' (strings.TrimSpace p), ∀ c ∈ e, unicode.IsSpace c = true)) →
      MatchPattern p v = true := by
    intro p v hmem hs he
    have hnil : ([] : Str) ∈ SplitRule (strings.TrimSpace p) := by
      rcases he with ⟨e, he1, he2⟩ | ⟨e, he1, he2⟩
      · rw [SplitRule_TrimSpace]
        exact List.mem_map.2 ⟨e, he1, TrimSpace_eq_nil_of_forall he2⟩
      · exact List.mem_map.2 ⟨e, he1, TrimSpace_eq_nil_of_forall he2⟩
    have h1 : strings.TrimSpace p ≠ [] := fun h => by rw [h] at hmem; simp at hmem
    have h2 : strings.TrimSpace p ≠ ['*'] := fun h => by rw [h] at hmem; simp at hmem
    have h3 : strings.TrimSpace p ≠ ['-'] := fun h => by rw [h] at hmem; simp at hmem
    have h4 : strings.Contains (strings.TrimSpace p) ',' = true := by
      simpa [strings.Contains] using hmem
    have h5 : MatchWithPatternArray v (SplitRule (strings.TrimSpace p)) = true :=
      MatchWithPatternArray_eq_true.2 ⟨[], hnil, MatchPattern_nil v⟩
    rw [MatchPattern_eq]
    simp only [h1, h2, h3, hs, h4, h5, false_and, if_false, if_true, Bool.false_eq_true]
    simp
  refine ⟨main, ?_⟩
  intro v
  refine ⟨main _ v (by decide) (by decide) (Or.inl ⟨[], by decide, by simp⟩),
    main _ v (by decide) (by decide) (Or.inl ⟨[], by decide, by simp⟩),
    main _ v (by decide) (by decide) (Or.inl ⟨[], by decide, by simp⟩),
    main _ v (by decide) (by decide) (Or.inl ⟨[' '], by decide, by decide⟩)⟩

/-- C19 at the pattern `" a, ,b "` and the value `"zzz"`. -/
theorem MatchPattern_empty_piece_witness :
    MatchPattern " a, ,b ".toList "zzz".toList = true :=
  MatchPattern_empty_piece.1 " a, ,b ".toList "zzz".toList (by decide) (by decide)
    (Or.inl ⟨[' '], by decide, by decide⟩)


/-- C16: the frame of the ownership walk. The walk returns, and the request
context it leaves differs from the initial one in the service-account slot at
most. If the slot is set at the start, it holds the same value at the end, and
the walk does the same whatever the lookup answers. If the slot is empty at the
start, it is empty at the end or holds the answer of a successful lookup for
the last and the second-to-last `:`-separated segment of the caller name. And
once the slot is set, after some first entries `xs`, it holds that value at the
end of the walk. -/
theorem walk_cache_slot (lookup : Lookup) (reqc : ReqContext)
    (patterns : List AllowedUserPattern) :
    ∃ b reqc1, isAuthorizedServiceAccount lookup reqc patterns = some (b, reqc1) ∧
      reqc1 = { reqc with ServiceAccount := reqc1.ServiceAccount } ∧
      (∀ sa, reqc.ServiceAccount = some sa →
        reqc1.ServiceAccount = some sa ∧
        ∀ lookup2 : Lookup, isAuthorizedServiceAccount lookup2 reqc patterns = some (b, reqc1)) ∧
      (reqc.ServiceAccount = none →
        reqc1.ServiceAccount = none ∨
        ∃ sa saName namespace_, reqc1.ServiceAccount = some sa ∧
          index (strings.Split ':' reqc.UserName)
            (((strings.Split ':' reqc.UserName).length : Int) - 1) = some saName ∧
          index (strings.Split ':' reqc.UserName)
            (((strings.Split ':' reqc.UserName).length : Int) - 2) = some namespace_ ∧
          lookup saName namespace_ = some sa) ∧
      (∀ xs ys b0 reqc0 sa, patterns = xs ++ ys →
        isAuthorizedServiceAccount lookup reqc xs = some (b0, reqc0) →
        reqc0.ServiceAccount = some sa → reqc1.ServiceAccount = some sa) := by
  obtain ⟨slot, hslot, hw⟩ := walk_spec lookup patterns reqc
  have hset : ∀ (l : Lookup) (r : ReqContext) (sa : ServiceAccount) (s : Option ServiceAccount),
      r.ServiceAccount = some sa →
      (s = r.ServiceAccount ∨ (s = resolvedServiceAccount l r ∧ s ≠ none)) → s = some sa := by
    intro l r sa s hr hs
    rcases hs with h | ⟨h, _⟩
    · rw [h, hr]
    · rw [h, resolvedServiceAccount_of_slot l r sa hr]
  refine ⟨_, _, hw, rfl, ?_, ?_, ?_⟩
  · intro sa hsa
    have h1 : slot = some sa := hset lookup reqc sa slot hsa hslot
    refine ⟨h1, ?_⟩
    intro lookup2
    obtain ⟨slot2, hslot2, hw2⟩ := walk_spec lookup2 patterns reqc
    have h2 : slot2 = some sa := hset lookup2 reqc sa slot2 hsa hslot2
    have hany : patterns.any (entrySucceeds lookup2 reqc) =
        patterns.any (entrySucceeds lookup reqc) := by
      congr 1
      funext q
      exact entrySucceeds_of_slot lookup2 lookup reqc sa hsa q
    rw [hw2, hany, h1, h2]
  · intro hnone
    rcases hslot with h | ⟨h, hne⟩
    · left
      show slot = none
      rw [h, hnone]
    · right
      cases hs : slot with
      | none => exact absurd hs hne
      | some sa =>
        rw [hs] at h
        obtain ⟨_, saName, namespace_, h1, h2, h3⟩ :=
          resolvedServiceAccount_of_empty_slot lookup reqc sa hnone h.symm
        exact ⟨sa, saName, namespace_, rfl, h1, h2, h3⟩
  · intro xs ys b0 reqc0 sa hp hxs hsa
    have happ := walk_append lookup xs ys reqc
    rw [← hp, hw, hxs] at happ
    cases b0 with
    | true =>
      simp only [Option.some.injEq, Prod.mk.injEq] at happ
      show slot = some sa
      have := congrArg ReqContext.ServiceAccount happ.2
      simp only at this
      rw [this, hsa]
    | false =>
      simp only at happ
      obtain ⟨slot3, hslot3, hw3⟩ := walk_spec lookup ys reqc0
      have h3 : slot3 = some sa := hset lookup reqc0 sa slot3 hsa hslot3
      rw [hw3] at happ
      simp only [Option.some.injEq, Prod.mk.injEq] at happ
      have := congrArg ReqContext.ServiceAccount happ.2
      simp only at this
      show slot = some sa
      rw [this, h3]

/-- C16 at a walk of two entries with the flag set and an empty slot: the first
entry has the lookup fill the slot with the service account of `builder`. -/
theorem walk_cache_slot_witness :
    ∃ b reqc1,
      isAuthorizedServiceAccount
          (lookupBuilder [("integrityVerified".toList, "false".toList)]) builderRequest
          [{ AllowChangesBySignedServiceAccount := true },
           { AllowChangesBySignedServiceAccount := true }] = some (b, reqc1) ∧
      (reqc1.ServiceAccount = none ∨
        ∃ sa saName namespace_, reqc1.ServiceAccount = some sa ∧
          index (strings.Split ':' builderRequest.UserName)
            (((strings.Split ':' builderRequest.UserName).length : Int) - 1) = some saName ∧
          index (strings.Split ':' builderRequest.UserName)
            (((strings.Split ':' builderRequest.UserName).length : Int) - 2)
              = some namespace_ ∧
          lookupBuilder [("integrityVerified".toList, "false".toList)] saName namespace_
            = some sa) := by
  obtain ⟨b, reqc1, h1, _, _, h4, _⟩ :=
    walk_cache_slot (lookupBuilder [("integrityVerified".toList, "false".toList)])
      builderRequest
      [{ AllowChangesBySignedServiceAccount := true },
       { AllowChangesBySignedServiceAccount := true }]
  exact ⟨b, reqc1, h1, h4 rfl⟩

/-- C17: the value of the ownership walk does not depend on the order of the
entries, the lookup being a function of the name and the namespace. The walk
over `xs ++ ys` returns true exactly when the walk over `xs` or the walk over
`ys` does, each from the same request context; so it returns over `ys ++ xs`
what it returns over `xs ++ ys`, and `PermitIfVerifiedOwner` on `Merge A B` and
on `Merge B A` both return the disjunction of its values on `A` and on `B`. -/
theorem walk_order_independent (lookup : Lookup) (reqc : ReqContext) :
    (∀ xs ys : List AllowedUserPattern,
      (walkResult lookup reqc (xs ++ ys) = some true ↔
        walkResult lookup reqc xs = some true ∨ walkResult lookup reqc ys = some true) ∧
      walkResult lookup reqc (ys ++ xs) = walkResult lookup reqc (xs ++ ys)) ∧
    (∀ A B : Policy, ∃ a b : Bool,
      (PermitIfVerifiedOwner lookup (some A) reqc).map Prod.fst = some a ∧
      (PermitIfVerifiedOwner lookup (some B) reqc).map Prod.fst = some b ∧
      (PermitIfVerifiedOwner lookup (some (A.Merge B)) reqc).map Prod.fst = some (a || b) ∧
      (PermitIfVerifiedOwner lookup (some (B.Merge A)) reqc).map Prod.fst = some (a || b)) := by
  constructor
  · intro xs ys
    constructor
    · simp only [walkResult_eq, List.any_append, Option.some.injEq, Bool.or_eq_true]
    · rw [walkResult_eq, walkResult_eq, List.any_append, List.any_append, Bool.or_comm]
  · intro A B
    refine ⟨A.PermitIfVerifiedOwner.any (entrySucceeds lookup reqc),
      B.PermitIfVerifiedOwner.any (entrySucceeds lookup reqc), ?_, ?_, ?_, ?_⟩
    · exact walkResult_eq lookup reqc A.PermitIfVerifiedOwner
    · exact walkResult_eq lookup reqc B.PermitIfVerifiedOwner
    · have h := walkResult_eq lookup reqc (A.PermitIfVerifiedOwner ++ B.PermitIfVerifiedOwner)
      rw [List.any_append] at h
      exact h
    · have h := walkResult_eq lookup reqc (B.PermitIfVerifiedOwner ++ A.PermitIfVerifiedOwner)
      rw [List.any_append, Bool.or_comm] at h
      exact h

/-- C20: the ownership walk is total. For every lookup, request context (so
every caller name) and sequence of entries it returns a boolean, no index being
out of range; and a caller name that starts with `system:` splits on `:` into
at least two segments, so that the last and the second-to-last one exist. The
empty name, a name without `:` and the bare `system:` are instances. -/
theorem walk_total :
    (∀ (lookup : Lookup) (reqc : ReqContext) (patterns : List AllowedUserPattern),
      ∃ b reqc1, isAuthorizedServiceAccount lookup reqc patterns = some (b, reqc1)) ∧
    (∀ userName : Str, strings.HasPrefix userName "system:".toList = true →
      2 ≤ (strings.Split ':' userName).length ∧
      ∃ saName namespace_,
        index (strings.Split ':' userName)
          (((strings.Split ':' userName).length : Int) - 1) = some saName ∧
        index (strings.Split ':' userName)
          (((strings.Split ':' userName).length : Int) - 2) = some namespace_) ∧
    (∀ (lookup : Lookup) (patterns : List AllowedUserPattern),
      (∃ b reqc1, isAuthorizedServiceAccount lookup { UserName := [] } patterns
        = some (b, reqc1)) ∧
      (∃ b reqc1, isAuthorizedServiceAccount lookup { UserName := "alice".toList } patterns
        = some (b, reqc1)) ∧
      (∃ b reqc1, isAuthorizedServiceAccount lookup { UserName := "system:".toList } patterns
        = some (b, reqc1))) ∧
    strings.Split ':' "system:".toList = ["system".toList, []] := by
  have total : ∀ (lookup : Lookup) (reqc : ReqContext) (patterns : List AllowedUserPattern),
      ∃ b reqc1, isAuthorizedServiceAccount lookup reqc patterns = some (b, reqc1) := by
    intro lookup reqc patterns
    obtain ⟨slot, _, h⟩ := walk_spec lookup patterns reqc
    exact ⟨_, _, h⟩
  refine ⟨total, ?_, fun lookup patterns => ⟨total _ _ _, total _ _ _, total _ _ _⟩, by decide⟩
  intro userName hp
  have hlen := two_le_length_Split (mem_of_HasPrefix_system hp)
  obtain ⟨a, ha⟩ := index_isSome (strings.Split ':' userName)
    (((strings.Split ':' userName).length : Int) - 1) (by omega) (by omega)
  obtain ⟨b, hb⟩ := index_isSome (strings.Split ':' userName)
    (((strings.Split ':' userName).length : Int) - 2) (by omega) (by omega)
  exact ⟨hlen, a, b, ha, hb⟩

/-- C20 at the bare caller name `system:`: two segments, `system` and the empty
one. -/
theorem walk_total_witness :
    2 ≤ (strings.Split ':' "system:".toList).length ∧
    ∃ saName namespace_,
      index (strings.Split ':' "system:".toList)
        (((strings.Split ':' "system:".toList).length : Int) - 1) = some saName ∧
      index (strings.Split ':' "system:".toList)
        (((strings.Split ':' "system:".toList).length : Int) - 2) = some namespace_ :=
  walk_total.2.1 "system:".toList (by decide)


end IntegrityEnforcer
